import Mathlib

/-!
Shallow embedding of the WordGame turn/combat core: tiles, tile containers
(racks and lanes), the per-side tile pool (`TileSet`), the dictionary, the
relic aggregation, the board combat engine (`Board`) and the opponent
strategy (`AI`).  Every definition is translated from the JavaScript source;
geometry, animation, audio and rendering state are outside the model.
Randomness (`Math.random`) is modelled by threading an explicit index source
(`Nat → Nat`, reduced modulo the relevant length).  Machine numbers that can
carry fractions (relic multipliers) are modelled as `Rat` so that
`Math.floor` is `Rat.floor`; health and damage totals are `Int`.
-/

namespace WordGame

/-- CONFIG.MIN_WORD_LENGTH. -/
def MIN_WORD_LENGTH : Nat := 2

/-- CONFIG.RACK_CAPACITY. -/
def RACK_CAPACITY : Nat := 7

/-- CONFIG.LANE_MAX_TILES. -/
def LANE_MAX_TILES : Nat := 12

/-- CONFIG.MULLIGAN_COUNT. -/
def MULLIGAN_COUNT : Int := 3

/-- CONFIG.STARTING_HEALTH. -/
def STARTING_HEALTH : Int := 30

/-- CONFIG.TILE_TYPES: the five tile type tags. -/
inductive TileType where
  | main
  | steel
  | ice
  | flower
  | gold
deriving DecidableEq, Repr

/-- The three one-shot powers of CONFIG.TILE_POWERS. -/
inductive Power where
  | shield
  | heal
  | meteor
deriving DecidableEq, Repr

/-- A letter tile: immutable letter plus mutable type tag (src/entities/tile.js).
Positions and animation state are visual only and are not modelled. -/
structure Tile where
  letter : Char
  type : TileType
deriving DecidableEq, Repr

/-- Tile.getPower: CONFIG.TILE_POWERS maps ice/flower/gold to
shield/heal/meteor; other types have no power. -/
def Tile.getPower (t : Tile) : Option Power :=
  match t.type with
  | TileType.ice => some Power.shield
  | TileType.flower => some Power.heal
  | TileType.gold => some Power.meteor
  | _ => none

/-- TileContainer (src/entities/tile.js): an ordered tile sequence with a
capacity.  Drag-preview (`gapIndex`) and layout fields are visual only. -/
structure TileContainer where
  tiles : List Tile
  maxTiles : Nat
deriving DecidableEq, Repr

namespace TileContainer

/-- TileContainer.isFull. -/
def isFull (c : TileContainer) : Bool :=
  c.maxTiles ≤ c.tiles.length

/-- TileContainer.isEmpty. -/
def isEmpty (c : TileContainer) : Bool :=
  c.tiles.length = 0

/-- TileContainer.addTile: append, refused when at capacity. -/
def addTile (c : TileContainer) (t : Tile) : Bool × TileContainer :=
  if c.maxTiles ≤ c.tiles.length then (false, c)
  else (true, { c with tiles := c.tiles ++ [t] })

/-- Insertion at a clamped position, mirroring `splice(clampedIndex, 0, tile)`. -/
def insertList : Nat → Tile → List Tile → List Tile
  | 0, t, l => t :: l
  | _ + 1, t, [] => [t]
  | n + 1, t, x :: xs => x :: insertList n t xs

/-- The clamp `Math.max(0, Math.min(index, tiles.length))`. -/
def clampIndex (index : Int) (len : Nat) : Nat :=
  (max 0 (min index (len : Int))).toNat

/-- TileContainer.insertTileAt: refused when at capacity, otherwise inserts
at the index clamped into `[0, length]`. -/
def insertTileAt (c : TileContainer) (t : Tile) (index : Int) : Bool × TileContainer :=
  if c.maxTiles ≤ c.tiles.length then (false, c)
  else (true, { c with tiles := insertList (clampIndex index c.tiles.length) t c.tiles })

/-- TileContainer.removeTile: out-of-range indices yield `none` and leave the
container unchanged; otherwise `splice(index, 1)` removes the tile. -/
def removeTile (c : TileContainer) (index : Int) : Option Tile × TileContainer :=
  if h : 0 ≤ index ∧ index.toNat < c.tiles.length then
    (some (c.tiles.get ⟨index.toNat, h.2⟩), { c with tiles := c.tiles.eraseIdx index.toNat })
  else (none, c)

/-- TileContainer.clear: returns the removed tiles. -/
def clear (c : TileContainer) : List Tile × TileContainer :=
  (c.tiles, { c with tiles := [] })

/-- TileContainer.getLetters. -/
def getLetters (c : TileContainer) : List Char :=
  c.tiles.map Tile.letter

end TileContainer

/-- Lane (extends TileContainer in the source, capacity LANE_MAX_TILES) with
ownership state (src/entities/lane.js). -/
structure Lane where
  tiles : List Tile
  owner : Option Nat
  temporaryOwner : Option Nat
  visible : Bool
  locked : Bool
  startTurnTileCount : Nat
deriving DecidableEq, Repr

namespace Lane

/-- Lane.isEmpty (inherited). -/
def isEmpty (l : Lane) : Bool :=
  l.tiles.length = 0

/-- Lane.addTile (inherited, capacity LANE_MAX_TILES). -/
def addTile (l : Lane) (t : Tile) : Bool × Lane :=
  if LANE_MAX_TILES ≤ l.tiles.length then (false, l)
  else (true, { l with tiles := l.tiles ++ [t] })

/-- Lane.getWord: the letters of the tiles, left to right. -/
def getWord (l : Lane) : List Char :=
  l.tiles.map Tile.letter

/-- Lane.setOwner: sets the owner (the source passes `null` from
moveLaneTiles, hence `Option`), clears the temporary owner and converts all
tiles to steel. -/
def setOwner (l : Lane) (playerNumber : Option Nat) : Lane :=
  { l with
    owner := playerNumber
    temporaryOwner := none
    tiles := l.tiles.map fun t => { t with type := TileType.steel } }

/-- Lane.clearTemporaryOwner. -/
def clearTemporaryOwner (l : Lane) : Lane :=
  { l with temporaryOwner := none }

/-- Lane.getEffectiveOwner. -/
def getEffectiveOwner (l : Lane) : Option Nat :=
  match l.temporaryOwner with
  | some p => some p
  | none => l.owner

/-- Lane.calculateDamage: tile count, or zero for an unowned lane. -/
def calculateDamage (l : Lane) : Nat :=
  match l.getEffectiveOwner with
  | none => 0
  | some _ => l.tiles.length

/-- Lane.hasNewTiles. -/
def hasNewTiles (l : Lane) : Bool :=
  l.startTurnTileCount < l.tiles.length

/-- Lane.saveTurnStartState. -/
def saveTurnStartState (l : Lane) : Lane :=
  { l with startTurnTileCount := l.tiles.length }

/-- Lane.clear: removes and returns all tiles and resets both owners. -/
def clear (l : Lane) : List Tile × Lane :=
  (l.tiles, { l with tiles := [], owner := none, temporaryOwner := none })

/-- Lane.removeTile (override): refused while the lane is locked. -/
def removeTile (l : Lane) (index : Int) : Option Tile × Lane :=
  if l.locked then (none, l)
  else if h : 0 ≤ index ∧ index.toNat < l.tiles.length then
    (some (l.tiles.get ⟨index.toNat, h.2⟩), { l with tiles := l.tiles.eraseIdx index.toNat })
  else (none, l)

/-- The shield/heal/meteor counts of Lane.getSpecialEffects. -/
structure SpecialEffects where
  shield : Nat
  heal : Nat
  meteor : Nat
deriving DecidableEq, Repr

/-- Lane.getSpecialEffects: counts tiles by power. -/
def getSpecialEffects (l : Lane) : SpecialEffects :=
  { shield := (l.tiles.filter fun t => t.getPower = some Power.shield).length
    heal := (l.tiles.filter fun t => t.getPower = some Power.heal).length
    meteor := (l.tiles.filter fun t => t.getPower = some Power.meteor).length }

end Lane

/-- An entry of TileSet.remainingTiles: either a plain letter string or a
`{letter, power}` record (src/systems/tile_set.js). -/
structure TileData where
  letter : Char
  power : Option Power
deriving DecidableEq, Repr

/-- The working copy of the per-side tile pool.  The persistent collection,
reset/shuffle and the reward flow are not needed by the verified claims and
are omitted. -/
structure TileSet where
  remainingTiles : List TileData
deriving DecidableEq, Repr

namespace TileSet

/-- TileSet.getTileTypeForPower. -/
def getTileTypeForPower (p : Power) : TileType :=
  match p with
  | Power.shield => TileType.ice
  | Power.heal => TileType.flower
  | Power.meteor => TileType.gold

/-- TileSet.getPowerForTileType. -/
def getPowerForTileType (ty : TileType) : Option Power :=
  match ty with
  | TileType.ice => some Power.shield
  | TileType.flower => some Power.heal
  | TileType.gold => some Power.meteor
  | _ => none

/-- TileSet.createTileFromData. -/
def createTileFromData (d : TileData) : Tile :=
  match d.power with
  | some p => { letter := d.letter, type := getTileTypeForPower p }
  | none => { letter := d.letter, type := TileType.main }

/-- `findIndex` + `splice(index, 1)` for a letter match (case-insensitive,
via toUpperCase on both sides as in the source). -/
def removeFirstMatch (letter : Char) : List TileData → Option (TileData × List TileData)
  | [] => none
  | d :: rest =>
    if d.letter.toUpper = letter then some (d, rest)
    else
      match removeFirstMatch letter rest with
      | none => none
      | some (x, l) => some (x, d :: l)

/-- `splice(index, 1)` at a positional index. -/
def extractAt : Nat → List TileData → Option (TileData × List TileData)
  | _, [] => none
  | 0, d :: rest => some (d, rest)
  | n + 1, d :: rest =>
    match extractAt n rest with
    | none => none
    | some (x, l) => some (x, d :: l)

/-- TileSet.drawTile: `none` on an empty pool; with a letter, removes the
first matching tile or fails with `none`; otherwise removes the tile at the
random index `r % length`. -/
def drawTile (ts : TileSet) (specificLetter : Option Char) (r : Nat) : Option Tile × TileSet :=
  if ts.remainingTiles.length = 0 then (none, ts)
  else
    match specificLetter with
    | some sl =>
      match removeFirstMatch sl.toUpper ts.remainingTiles with
      | none => (none, ts)
      | some (d, rest) => (some (createTileFromData d), ⟨rest⟩)
    | none =>
      match extractAt (r % ts.remainingTiles.length) ts.remainingTiles with
      | none => (none, ts)
      | some (d, rest) => (some (createTileFromData d), ⟨rest⟩)

/-- TileSet.returnTile: pushes the tile back, preserving a power tag. -/
def returnTile (ts : TileSet) (t : Tile) : TileSet :=
  ⟨ts.remainingTiles ++ [{ letter := t.letter, power := getPowerForTileType t.type }]⟩

/-- Letters currently in the pool (for conservation statements). -/
def poolLetters (ts : TileSet) : List Char :=
  ts.remainingTiles.map TileData.letter

end TileSet

/-- Dictionary state (src/systems/dictionary.js): the main list plus the two
per-player supplemental lists, all as lists of words (words as `List Char`).
The precomputed `letters` count objects are recovered by counting. -/
structure DictEnv where
  mainDictionary : List (List Char)
  playerWords1 : List (List Char)
  playerWords2 : List (List Char)

namespace DictEnv

/-- The player lookup `this.playerWords[playerNumber]`. -/
def playerWords (env : DictEnv) (playerNumber : Nat) : List (List Char) :=
  if playerNumber = 1 then env.playerWords1
  else if playerNumber = 2 then env.playerWords2
  else []

/-- DictionarySystem.wordExists: case-insensitive lookup in the player's
supplemental list (when a player is given) and then in the main list. -/
def wordExists (env : DictEnv) (word : List Char) (playerNumber : Option Nat) : Bool :=
  let lowerWord := word.map Char.toLower
  (match playerNumber with
   | some p => (env.playerWords p).any fun e => e.map Char.toLower = lowerWord
   | none => false)
  || env.mainDictionary.any fun e => e.map Char.toLower = lowerWord

/-- DictionarySystem.getSize. -/
def getSize (env : DictEnv) : Nat :=
  env.mainDictionary.length

end DictEnv

/-- A relic's capability set, restricted to the capabilities the verified
claims exercise (src/systems/relics.js).  Every capability is total with the
base-class default available as a plain value. -/
structure Relic where
  getWordScoreMult : List Char → Rat
  getWordScoreAdditive : List Char → Rat
  getWordVulnerabilityMult : List Char → Rat
  getRequiredRackLetters : Option Char

/-- The per-side active relic sets of RelicManager (`getActiveRelics`). -/
structure RelicEnv where
  active1 : List Relic
  active2 : List Relic

namespace RelicEnv

/-- `getActiveRelics(playerNumber)`. -/
def active (renv : RelicEnv) (playerNumber : Nat) : List Relic :=
  if playerNumber = 1 then renv.active1
  else if playerNumber = 2 then renv.active2
  else []

end RelicEnv

/-- RelicManager.getMultResult: product over the active relics. -/
def getMultResult (relics : List Relic) (method : Relic → List Char → Rat) (word : List Char) : Rat :=
  relics.foldl (fun acc r => acc * method r word) 1

/-- RelicManager.getAdditiveResult: sum over the active relics. -/
def getAdditiveResult (relics : List Relic) (method : Relic → List Char → Rat) (word : List Char) : Rat :=
  relics.foldl (fun acc r => acc + method r word) 0

/-- RelicManager.getListOfResults for getRequiredRackLetters: the non-null
required letters of the active relics. -/
def getRequiredRackLetterResults (relics : List Relic) : List Char :=
  relics.foldl (fun acc r =>
    match r.getRequiredRackLetters with
    | some c => acc ++ [c]
    | none => acc) []

/-- The required-letter phase of Board.fillRack.  `currentLetters` is the
rack snapshot captured once before the loop, exactly as in the source. -/
def drawRequiredLoop (currentLetters : List Char) : List Char → TileContainer → TileSet → TileContainer × TileSet
  | [], rack, ts => (rack, ts)
  | required :: rest, rack, ts =>
    let letter := required.toUpper
    if ¬ currentLetters.contains letter ∧ ¬ rack.isFull then
      match ts.drawTile (some letter) 0 with
      | (some tile, ts1) => drawRequiredLoop currentLetters rest (rack.addTile tile).2 ts1
      | (none, ts1) => drawRequiredLoop currentLetters rest rack ts1
    else drawRequiredLoop currentLetters rest rack ts

/-- The `while (!rack.isFull())` draw loop of Board.fillRack, with the pool
size as fuel (each successful draw shrinks the pool by one). -/
def fillLoop (rnd : Nat → Nat) : Nat → Nat → TileContainer → TileSet → TileContainer × TileSet
  | 0, _, rack, ts => (rack, ts)
  | fuel + 1, k, rack, ts =>
    if rack.isFull then (rack, ts)
    else
      match ts.drawTile none (rnd k) with
      | (none, ts1) => (rack, ts1)
      | (some tile, ts1) => fillLoop rnd fuel (k + 1) (rack.addTile tile).2 ts1

/-- Board.fillRack: draw relic-required letters first, then fill to capacity
or until the pool is exhausted.  Tile start positions are visual only. -/
def fillRack (requiredLetters : List Char) (rnd : Nat → Nat) (rack : TileContainer)
    (ts : TileSet) : TileContainer × TileSet :=
  let currentLetters := rack.getLetters
  let p := drawRequiredLoop currentLetters requiredLetters rack ts
  fillLoop rnd p.2.remainingTiles.length 0 p.1 p.2

/-- The match phases of the Board state machine. -/
inductive Phase where
  | playing
  | end_turn
  | combat
  | post_combat
  | ai_turn
  | game_over
deriving DecidableEq, Repr

/-- Board/match state (src/board.js).  Canvas, sprites, the drag manager and
the turn-restart snapshot are outside the verified claims. -/
structure Board where
  currentPlayer : Nat
  state : Phase
  playerHealth : Int
  playerMaxHealth : Int
  enemyHealth : Int
  enemyMaxHealth : Int
  mulliganCount : Int
  hasUsedMulligan : Bool
  playerTileSet : TileSet
  enemyTileSet : TileSet
  lane0 : Lane
  lane1 : Lane
  lane2 : Lane
  playerRack : TileContainer
  enemyRack : TileContainer
deriving DecidableEq, Repr

namespace Board

/-- Board.dealDamage: subtract and clamp at zero (`Math.max(0, h - amount)`);
the enemy shake is visual only. -/
def dealDamage (b : Board) (target : Nat) (amount : Int) : Board :=
  if target = 1 then { b with playerHealth := max 0 (b.playerHealth - amount) }
  else { b with enemyHealth := max 0 (b.enemyHealth - amount) }

/-- Board.processSpecialEffects: shield/heal for the human side, meteor
damage to the opposite side, then non-steel tiles revert to `main`.  The
lane is passed and returned explicitly (the source mutates it in place). -/
def processSpecialEffects (b : Board) (lane : Lane) : Board × Lane :=
  let effects := lane.getSpecialEffects
  let b1 :=
    if 0 < effects.shield ∧ b.currentPlayer = 1 then
      { b with
        playerMaxHealth := b.playerMaxHealth + (effects.shield : Int)
        playerHealth := b.playerHealth + (effects.shield : Int) }
    else b
  let b2 :=
    if 0 < effects.heal ∧ b1.currentPlayer = 1 then
      { b1 with playerHealth := min (b1.playerHealth + (effects.heal : Int)) b1.playerMaxHealth }
    else b1
  let b3 :=
    if 0 < effects.meteor then
      if b2.currentPlayer = 1 then b2.dealDamage 2 (effects.meteor : Int)
      else b2.dealDamage 1 (effects.meteor : Int)
    else b2
  let lane1 :=
    { lane with
      tiles := lane.tiles.map fun t =>
        if t.type ≠ TileType.steel then { t with type := TileType.main } else t }
  (b3, lane1)

/-- Board.moveLaneTiles on a (source, destination) lane pair: clear the
source, append its tiles to the destination, transfer the (possibly null)
ownership.  Repositioning is visual only. -/
def moveLaneTilesPair (fromLane toLane : Lane) : Lane × Lane :=
  let owner := fromLane.owner
  let p := fromLane.clear
  let toLane1 := p.1.foldl (fun l t => (l.addTile t).2) toLane
  (p.2, toLane1.setOwner owner)

/-- The `lanes[0]/lanes[1]` check-and-move of Board.shiftLanes, on the lane
triple. -/
def shiftStep01 (t : Lane × Lane × Lane) : Lane × Lane × Lane :=
  if t.1.isEmpty ∧ ¬ t.2.1.isEmpty then
    ((moveLaneTilesPair t.2.1 t.1).2, (moveLaneTilesPair t.2.1 t.1).1, t.2.2)
  else t

/-- The `lanes[1]/lanes[2]` check-and-move of Board.shiftLanes, on the lane
triple. -/
def shiftStep12 (t : Lane × Lane × Lane) : Lane × Lane × Lane :=
  if t.2.1.isEmpty ∧ ¬ t.2.2.isEmpty then
    (t.1, (moveLaneTilesPair t.2.2 t.2.1).2, (moveLaneTilesPair t.2.2 t.2.1).1)
  else t

/-- Board.shiftLanes: check 1 into 0, then 2 into 1, then 1 into 0 again. -/
def shiftLanes (b : Board) : Board :=
  let t := shiftStep01 (shiftStep12 (shiftStep01 (b.lane0, b.lane1, b.lane2)))
  { b with lane0 := t.1, lane1 := t.2.1, lane2 := t.2.2 }

/-- Board.validateAllWords: indices (in lane order) of lanes that gained
tiles this turn but hold a too-short or non-dictionary word. -/
def validateAllWords (env : DictEnv) (b : Board) : List Nat :=
  let check := fun (acc : List Nat) (i : Nat) (lane : Lane) =>
    if ¬ lane.hasNewTiles then acc
    else if lane.getWord.length < MIN_WORD_LENGTH then acc ++ [i]
    else if ¬ env.wordExists lane.getWord (some b.currentPlayer) then acc ++ [i]
    else acc
  check (check (check [] 0 b.lane0) 1 b.lane1) 2 b.lane2

/-- Board.mulligan: human side only; returns the whole rack to the pool,
refills, and unless this is the forced full-hand mulligan consumes one
allowance and sets the per-turn flag. -/
def mulligan (requiredLetters : List Char) (rnd : Nat → Nat) (b : Board)
    (fullMulligan : Bool) : Board :=
  if b.currentPlayer ≠ 1 then b
  else
    let p := b.playerRack.clear
    let ts := p.1.foldl TileSet.returnTile b.playerTileSet
    let pr := fillRack requiredLetters rnd p.2 ts
    let b1 := { b with playerRack := pr.1, playerTileSet := pr.2 }
    if ¬ fullMulligan then
      { b1 with mulliganCount := b1.mulliganCount - 1, hasUsedMulligan := true }
    else b1

/-- The per-lane body of the success path of Board.endTurn. -/
def endTurnLaneStep (b : Board) (lane : Lane) : Board × Lane :=
  if lane.hasNewTiles then
    let lane1 := lane.setOwner (some b.currentPlayer)
    let p := b.processSpecialEffects lane1
    (p.1, p.2.clearTemporaryOwner)
  else (b, lane.clearTemporaryOwner)

/-- Board.endTurn: refuse outside the `playing` phase; refuse (shaking the
offending lanes, a visual effect) when validation fails; otherwise assign
ownership and special effects per lane with new tiles, refill (or force a
free mulligan on a still-full hand) and move to `end_turn`. -/
def endTurn (env : DictEnv) (requiredLetters : List Char) (rnd : Nat → Nat)
    (b : Board) : Bool × Board :=
  if b.state ≠ Phase.playing then (false, b)
  else
    let invalidLanes := b.validateAllWords env
    if invalidLanes ≠ [] then (false, b)
    else
      let p0 := b.endTurnLaneStep b.lane0
      let b1 := { p0.1 with lane0 := p0.2 }
      let p1 := b1.endTurnLaneStep b1.lane1
      let b2 := { p1.1 with lane1 := p1.2 }
      let p2 := b2.endTurnLaneStep b2.lane2
      let b3 := { p2.1 with lane2 := p2.2 }
      let b4 :=
        if b3.playerRack.isFull && b3.currentPlayer == 1 then
          b3.mulligan requiredLetters rnd true
        else
          let pr := fillRack requiredLetters rnd b3.playerRack b3.playerTileSet
          { b3 with playerRack := pr.1, playerTileSet := pr.2 }
      (true, { b4 with state := Phase.end_turn })

/-- The per-lane damage accumulation of Board.processCombat: the pair is
(playerDamage, enemyDamage). -/
def laneCombatStep (renv : RelicEnv) (acc : Int × Int) (lane : Lane) : Int × Int :=
  let word := lane.getWord
  let baseDamage := lane.calculateDamage
  if lane.owner = some 1 ∧ 0 < baseDamage then
    let mult := getMultResult renv.active1 Relic.getWordScoreMult word
    let additive := getAdditiveResult renv.active1 Relic.getWordScoreAdditive word
    let vulnMult := getMultResult renv.active2 Relic.getWordVulnerabilityMult word
    (acc.1 + Rat.floor (((baseDamage : Rat) * mult + additive) * vulnMult), acc.2)
  else if lane.owner = some 2 ∧ 0 < baseDamage then
    let mult := getMultResult renv.active2 Relic.getWordScoreMult word
    let additive := getAdditiveResult renv.active2 Relic.getWordScoreAdditive word
    (acc.1, acc.2 + Rat.floor ((baseDamage : Rat) * mult + additive))
  else acc

/-- Board.processCombat: accumulate both sides' damage over the lanes, then
apply each positive total to the opposing health pool. -/
def processCombat (renv : RelicEnv) (b : Board) : Board :=
  let acc := laneCombatStep renv (laneCombatStep renv (laneCombatStep renv (0, 0) b.lane0) b.lane1) b.lane2
  let b1 := if 0 < acc.1 then b.dealDamage 2 acc.1 else b
  if 0 < acc.2 then b1.dealDamage 1 acc.2 else b1

/-- The outcome of Board.checkGameOver. -/
inductive GameResult where
  | win
  | lose
deriving DecidableEq, Repr

/-- Board.checkGameOver: player at or below zero loses first. -/
def checkGameOver (b : Board) : Option GameResult :=
  if b.playerHealth ≤ 0 then some GameResult.lose
  else if b.enemyHealth ≤ 0 then some GameResult.win
  else none

end Board

namespace AI

/-- The dictDivisor picked from CONFIG.DIFFICULTY: levels 1..5 in object
order; any other level falls back to MEDIUM via `|| CONFIG.DIFFICULTY.MEDIUM`. -/
def dictDivisor : Nat → Nat
  | 1 => 128
  | 2 => 32
  | 3 => 16
  | 4 => 4
  | 5 => 1
  | _ => 16

/-- AI.calculateDictLimit: `Math.floor(dictionary.getSize() / dictDivisor)`. -/
def calculateDictLimit (difficulty : Nat) (dictSize : Nat) : Nat :=
  dictSize / dictDivisor difficulty

/-- AI.getLetterCounts lowers every letter; counts are recovered from the
lowered list with `List.count`. -/
def lower (letters : List Char) : List Char :=
  letters.map Char.toLower

/-- AI.canFormWord: each letter of the word occurs among the available
letters at least as often as in the word. -/
def canFormWord (wordLetters availableLetters : List Char) : Bool :=
  (lower wordLetters).all fun c =>
    (lower wordLetters).count c ≤ (lower availableLetters).count c

/-- AI.containsAllLetters: the word contains each required letter at least
as many times as it is required. -/
def containsAllLetters (wordLetters requiredLetters : List Char) : Bool :=
  (lower requiredLetters).all fun c =>
    (lower requiredLetters).count c ≤ (lower wordLetters).count c

/-- The skip tests inside AI.findBestWord's scan, in source order: not a
no-new-letter steal, not too short, formable, and containing the lane
letters. -/
def isCandidate (allLetters requiredLetters word : List Char) : Bool :=
  !(decide (word.length ≤ requiredLetters.length) && decide (0 < requiredLetters.length))
  && decide (MIN_WORD_LENGTH ≤ word.length)
  && canFormWord word allLetters
  && containsAllLetters word requiredLetters

/-- The scan loop of AI.findBestWord: keep the first word that is strictly
longer than the best so far. -/
def findBestWordGo (cand : List Char → Bool) :
    List (List Char) → Option (List Char) → Nat → Option (List Char)
  | [], best, _ => best
  | w :: rest, best, bestLength =>
    if cand w then
      if bestLength < w.length then findBestWordGo cand rest (some w) w.length
      else findBestWordGo cand rest best bestLength
    else findBestWordGo cand rest best bestLength

/-- AI.findBestWord: scan the first `calculateDictLimit` dictionary entries
in rank order (`getWordByRank` returns null past the end, which stops the
loop, hence `List.take`). -/
def findBestWord (dict : List (List Char)) (difficulty : Nat)
    (allLetters requiredLetters : List Char) : Option (List Char) :=
  findBestWordGo (isCandidate allLetters requiredLetters)
    (dict.take (calculateDictLimit difficulty dict.length)) none 0

/-- The lane-letter scan inside AI.playWord: the first unused lane-origin
index holding the letter for which a pool draw succeeds; a failed draw
leaves the pool unchanged and the scan continues. -/
def laneLetterLoop (usedLane : List Nat) (letter : Char) (ts : TileSet) :
    List (Nat × Char) → Option (Nat × Tile × TileSet)
  | [] => none
  | (i, c) :: rest =>
    if !usedLane.contains i && c == letter then
      match ts.drawTile (some letter) 0 with
      | (some tile, ts1) => some (i, tile, ts1)
      | (none, _) => laneLetterLoop usedLane letter ts rest
    else laneLetterLoop usedLane letter ts rest

/-- The `rack.tiles.findIndex` call inside AI.playWord; note that the source
consults the shared `usedRack` map with the rack **tile** index here. -/
def findRackTileIdx (usedRack : List Nat) (letter : Char) : List (Nat × Tile) → Option Nat
  | [] => none
  | (idx, t) :: rest =>
    if t.letter == letter && !usedRack.contains idx then some idx
    else findRackTileIdx usedRack letter rest

/-- The rack-letter scan inside AI.playWord: the first unused selected rack
letter equal to the target for which a rack tile index is found. -/
def rackLetterLoop (usedRack : List Nat) (letter : Char) (rackTiles : List Tile) :
    List (Nat × Char) → Option (Nat × Nat)
  | [] => none
  | (i, c) :: rest =>
    if !usedRack.contains i && c == letter then
      match findRackTileIdx usedRack letter rackTiles.enum with
      | some rackIndex => some (i, rackIndex)
      | none => rackLetterLoop usedRack letter rackTiles rest
    else rackLetterLoop usedRack letter rackTiles rest

/-- The per-letter build loop of AI.playWord.  The source ignores the result
of `lane.addTile` (a full lane silently drops the tile), which this mirrors
with `.2`.  The impossible `removeTile` miss (the found index is always in
range) aborts like the not-found path. -/
def playWordGo (laneIdx rackIdx : List (Nat × Char)) :
    List Char → List Nat → List Nat → Lane → TileContainer → TileSet →
      Bool × Lane × TileContainer × TileSet
  | [], _, _, lane, rack, ts => (true, lane.setOwner (some 2), rack, ts)
  | letter :: rest, usedLane, usedRack, lane, rack, ts =>
    match laneLetterLoop usedLane letter ts laneIdx with
    | some (i, tile, ts1) =>
      playWordGo laneIdx rackIdx rest (i :: usedLane) usedRack (lane.addTile tile).2 rack ts1
    | none =>
      match rackLetterLoop usedRack letter rack.tiles rackIdx with
      | some (i, rackIndex) =>
        match rack.removeTile (rackIndex : Int) with
        | (some tile, rack1) =>
          playWordGo laneIdx rackIdx rest usedLane (i :: usedRack) (lane.addTile tile).2 rack1 ts
        | (none, rack1) => (false, lane, rack1, ts)
      | none => (false, lane, rack, ts)

/-- AI.playWord: clear the lane, return its old tiles to the enemy pool,
then materialise the word letter by letter (lane-origin letters first, then
selected rack letters); on success the lane is owned by side 2.  A letter
that cannot be matched aborts with `false`. -/
def playWord (word laneLetters rackLetters : List Char) (lane : Lane)
    (rack : TileContainer) (ts : TileSet) : Bool × Lane × TileContainer × TileSet :=
  let p := lane.clear
  let ts1 := p.1.foldl TileSet.returnTile ts
  playWordGo laneLetters.enum rackLetters.enum (word.map Char.toUpper) [] [] p.2 rack ts1

end AI

/-- Modelled from the spec: "the longest word" among the scanned entries
satisfying the candidate tests, "ties on length broken by dictionary order
(first match wins)", and null when no candidate exists. -/
def specLongestEarliest (cand : List Char → Bool) : List (List Char) → Option (List Char)
  | [] => none
  | w :: rest =>
    match specLongestEarliest cand rest with
    | none => if cand w then some w else none
    | some b => if cand w && decide (b.length ≤ w.length) then some w else some b

/-- Modelled from the claim wording of C1: a lane's damage is
`floor((tileCount * owning mult + owning additive) * opposing vulnerability)`
uniformly for both sides. -/
def claimedLaneDamage (renv : RelicEnv) (owningSide opposingSide : Nat) (lane : Lane) : Int :=
  Rat.floor
    (((lane.tiles.length : Rat)
        * getMultResult (renv.active owningSide) Relic.getWordScoreMult lane.getWord
        + getAdditiveResult (renv.active owningSide) Relic.getWordScoreAdditive lane.getWord)
      * getMultResult (renv.active opposingSide) Relic.getWordVulnerabilityMult lane.getWord)

/-- The code-accurate per-lane damage of an enemy-owned lane: no
vulnerability factor is applied. -/
def enemyLaneDamage (renv : RelicEnv) (lane : Lane) : Int :=
  Rat.floor
    ((lane.tiles.length : Rat)
        * getMultResult (renv.active2 ) Relic.getWordScoreMult lane.getWord
      + getAdditiveResult (renv.active2 ) Relic.getWordScoreAdditive lane.getWord)

/-- The player side's combat total: claim formula over player-owned,
non-empty lanes. -/
def playerDamageTotal (renv : RelicEnv) (b : Board) : Int :=
  (if b.lane0.owner = some 1 ∧ b.lane0.tiles ≠ [] then claimedLaneDamage renv 1 2 b.lane0 else 0)
  + (if b.lane1.owner = some 1 ∧ b.lane1.tiles ≠ [] then claimedLaneDamage renv 1 2 b.lane1 else 0)
  + (if b.lane2.owner = some 1 ∧ b.lane2.tiles ≠ [] then claimedLaneDamage renv 1 2 b.lane2 else 0)

/-- The enemy side's combat total: code formula (no vulnerability) over
enemy-owned, non-empty lanes. -/
def enemyDamageTotal (renv : RelicEnv) (b : Board) : Int :=
  (if b.lane0.owner = some 2 ∧ b.lane0.tiles ≠ [] then enemyLaneDamage renv b.lane0 else 0)
  + (if b.lane1.owner = some 2 ∧ b.lane1.tiles ≠ [] then enemyLaneDamage renv b.lane1 else 0)
  + (if b.lane2.owner = some 2 ∧ b.lane2.tiles ≠ [] then enemyLaneDamage renv b.lane2 else 0)

/-- A TileContainer mutation, for invariance over operation sequences. -/
inductive ContainerOp where
  | add (t : Tile)
  | insertAt (t : Tile) (index : Int)
  | remove (index : Int)
  | clearAll

/-- Apply one container operation (dropping the returned value). -/
def applyContainerOp (c : TileContainer) : ContainerOp → TileContainer
  | ContainerOp.add t => (c.addTile t).2
  | ContainerOp.insertAt t i => (c.insertTileAt t i).2
  | ContainerOp.remove i => (c.removeTile i).2
  | ContainerOp.clearAll => c.clear.2

/-- Apply a sequence of container operations. -/
def runContainerOps (c : TileContainer) (ops : List ContainerOp) : TileContainer :=
  ops.foldl applyContainerOp c

/-- A resolution-pass step touching the health pools: a combat resolution or
the special effects (shield/heal/meteor) of an accepted lane. -/
inductive ResolutionOp where
  | combatStep (renv : RelicEnv)
  | specialEffectsStep (lane : Lane)

/-- Apply one resolution step to the board. -/
def applyResolutionOp (b : Board) : ResolutionOp → Board
  | ResolutionOp.combatStep renv => b.processCombat renv
  | ResolutionOp.specialEffectsStep lane => (b.processSpecialEffects lane).1

/-- Apply a sequence of resolution steps. -/
def runResolution (b : Board) (ops : List ResolutionOp) : Board :=
  ops.foldl applyResolutionOp b

/-- A lane with no tiles and neutral ownership. -/
def emptyLane : Lane :=
  { tiles := []
    owner := none
    temporaryOwner := none
    visible := true
    locked := false
    startTurnTileCount := 0 }

/-- A lane holding the given steel letters with the given owner and a zero
turn-start snapshot. -/
def mkLane (s : String) (owner : Option Nat) : Lane :=
  { tiles := s.toList.map fun c => { letter := c, type := TileType.steel }
    owner := owner
    temporaryOwner := none
    visible := true
    locked := false
    startTurnTileCount := 0 }

/-- A fresh board in the `playing` phase with empty lanes, racks and pools. -/
def baseBoard : Board :=
  { currentPlayer := 1
    state := Phase.playing
    playerHealth := STARTING_HEALTH
    playerMaxHealth := STARTING_HEALTH
    enemyHealth := STARTING_HEALTH
    enemyMaxHealth := STARTING_HEALTH
    mulliganCount := MULLIGAN_COUNT
    hasUsedMulligan := false
    playerTileSet := ⟨[]⟩
    enemyTileSet := ⟨[]⟩
    lane0 := emptyLane
    lane1 := emptyLane
    lane2 := emptyLane
    playerRack := ⟨[], RACK_CAPACITY⟩
    enemyRack := ⟨[], RACK_CAPACITY⟩ }

/-- The base Relic class defaults: identity multipliers, zero additive, no
required letter. -/
def defaultRelic : Relic :=
  { getWordScoreMult := fun _ => 1
    getWordScoreAdditive := fun _ => 0
    getWordVulnerabilityMult := fun _ => 1
    getRequiredRackLetters := none }

/-- Relic.isWordInList: case-insensitive membership in the relic word list. -/
def isWordInList (list : List (List Char)) (w : List Char) : Bool :=
  list.contains (w.map Char.toLower)

/-- AlphaRelic: words starting with "a" deal double damage. -/
def alphaRelic : Relic :=
  { defaultRelic with
    getWordScoreMult := fun w => if (w.map Char.toLower).head? = some 'a' then 2 else 1 }

/-- The BugWordsRelic word list. -/
def bugWordsList : List (List Char) :=
  ["ant", "fly", "bug", "bee", "moth", "wasp", "pest", "grub", "mite", "flea"].map
    String.toList

/-- BugWordsRelic (enemy-only weakness): listed insect words get a double
vulnerability multiplier. -/
def bugWordsRelic : Relic :=
  { defaultRelic with
    getWordVulnerabilityMult := fun w => if isWordInList bugWordsList w then 2 else 1 }

/-- C1 counterexample fixture: an enemy-owned lane spelling "ant" while the
player side has the bug-words vulnerability relic active. -/
def c1Board : Board :=
  { baseBoard with lane0 := mkLane "ANT" (some 2) }

/-- C1 counterexample relic sets: vulnerability relic active on side 1. -/
def c1Renv : RelicEnv :=
  ⟨[bugWordsRelic], []⟩

/-- C1 scenario fixture: a player-owned lane spelling "ant" with the Alpha
double-damage relic active on side 1 and no enemy relics. -/
def c1ScenarioBoard : Board :=
  { baseBoard with lane0 := mkLane "ANT" (some 1) }

/-- C1 scenario relic sets. -/
def c1ScenarioRenv : RelicEnv :=
  ⟨[alphaRelic], []⟩

/-- The health invariant of C10: both pools and the player's max pool are
non-negative. -/
def healthNonneg (b : Board) : Prop :=
  0 ≤ b.playerHealth ∧ 0 ≤ b.enemyHealth ∧ 0 ≤ b.playerMaxHealth

/-- A lane that makes a submit illegal: it gained tiles this turn and its
word is under the minimum length or not in the acting side's dictionary. -/
def badLane (env : DictEnv) (b : Board) (lane : Lane) : Prop :=
  lane.hasNewTiles = true ∧
    (lane.getWord.length < MIN_WORD_LENGTH ∨
      env.wordExists lane.getWord (some b.currentPlayer) = false)

instance badLaneDecidable (env : DictEnv) (b : Board) (lane : Lane) :
    Decidable (badLane env b lane) := by
  unfold badLane
  infer_instance

/-- C2 fixture: a board whose first lane gained a single-letter (too short)
word this turn. -/
def c2Board : Board :=
  { baseBoard with lane0 := mkLane "Q" none }

/-- C2 fixture: an empty dictionary environment. -/
def c2Env : DictEnv :=
  ⟨[], [], []⟩

/-- The combined letter contents of a lane, a rack and a pool, for the tile
conservation statements of C3. -/
def stateLetters (lane : Lane) (rack : TileContainer) (ts : TileSet) : List Char :=
  lane.tiles.map Tile.letter ++ rack.tiles.map Tile.letter ++ ts.poolLetters

/-- C3 fixture: an enemy-owned lane holding the single letter Z. -/
def c3Lane : Lane := mkLane "Z" (some 2)

/-- C3 fixture: an enemy rack holding the single letter A. -/
def c3Rack : TileContainer := ⟨[⟨'A', TileType.main⟩], RACK_CAPACITY⟩

/-- C3 fixture: an empty enemy pool. -/
def c3TileSet : TileSet := ⟨[]⟩

/-- Merge of an accumulator with the best of the remaining scan, used to
relate the findBestWord loop to its specification. -/
def combineBest : Option (List Char) → Option (List Char) → Option (List Char)
  | none, r => r
  | some b, none => some b
  | some b, some w => if b.length < w.length then some w else some b

/-! Helper lemmas shared by several claim proofs. -/

theorem insertList_length (n : Nat) (t : Tile) (l : List Tile) :
    (TileContainer.insertList n t l).length = l.length + 1 := by
  induction n generalizing l with
  | zero => simp [TileContainer.insertList]
  | succ n ih =>
    cases l with
    | nil => simp [TileContainer.insertList]
    | cons x xs => simp [TileContainer.insertList, ih]

theorem get_cons_eraseIdx_perm {α : Type} :
    ∀ (l : List α) (i : Nat) (h : i < l.length),
      List.Perm (l.get ⟨i, h⟩ :: l.eraseIdx i) l
  | _ :: _, 0, _ => by simp [List.eraseIdx]
  | a :: l, i + 1, h => by
    simpa [List.eraseIdx] using
      (List.Perm.swap a (l.get ⟨i, by simpa using Nat.lt_of_succ_lt_succ h⟩) _).trans
        ((get_cons_eraseIdx_perm l i (by simpa using Nat.lt_of_succ_lt_succ h)).cons a)

theorem eraseIdx_length_lt {α : Type} (l : List α) (i : Nat) (h : i < l.length) :
    (l.eraseIdx i).length + 1 = l.length :=
  (get_cons_eraseIdx_perm l i h).length_eq

theorem applyContainerOp_maxTiles (c : TileContainer) (op : ContainerOp) :
    (applyContainerOp c op).maxTiles = c.maxTiles := by
  cases op with
  | add t =>
    by_cases hc : c.maxTiles ≤ c.tiles.length <;>
      simp [applyContainerOp, TileContainer.addTile, hc]
  | insertAt t i =>
    by_cases hc : c.maxTiles ≤ c.tiles.length <;>
      simp [applyContainerOp, TileContainer.insertTileAt, hc]
  | remove i =>
    by_cases hc : 0 ≤ i ∧ i.toNat < c.tiles.length <;>
      simp [applyContainerOp, TileContainer.removeTile, hc]
  | clearAll => rfl

theorem applyContainerOp_length (c : TileContainer) (op : ContainerOp)
    (h : c.tiles.length ≤ c.maxTiles) :
    (applyContainerOp c op).tiles.length ≤ c.maxTiles := by
  cases op with
  | add t =>
    by_cases hc : c.maxTiles ≤ c.tiles.length
    · simpa [applyContainerOp, TileContainer.addTile, hc] using h
    · simp [applyContainerOp, TileContainer.addTile, hc]
      omega
  | insertAt t i =>
    by_cases hc : c.maxTiles ≤ c.tiles.length
    · simpa [applyContainerOp, TileContainer.insertTileAt, hc] using h
    · simp [applyContainerOp, TileContainer.insertTileAt, hc, insertList_length]
      omega
  | remove i =>
    by_cases hc : 0 ≤ i ∧ i.toNat < c.tiles.length
    · have := eraseIdx_length_lt c.tiles i.toNat hc.2
      simp [applyContainerOp, TileContainer.removeTile, hc]
      omega
    · simpa [applyContainerOp, TileContainer.removeTile, hc] using h
  | clearAll => simp [applyContainerOp, TileContainer.clear]

theorem runContainerOps_capacity (ops : List ContainerOp) :
    ∀ c : TileContainer, c.tiles.length ≤ c.maxTiles →
      (runContainerOps c ops).tiles.length ≤ (runContainerOps c ops).maxTiles ∧
      (runContainerOps c ops).maxTiles = c.maxTiles := by
  induction ops with
  | nil => exact fun c h => ⟨h, rfl⟩
  | cons op rest ih =>
    intro c h
    have h1 := applyContainerOp_length c op h
    have h2 := applyContainerOp_maxTiles c op
    have h3 := ih (applyContainerOp c op) (by rw [h2]; exact h1)
    have hrun : runContainerOps c (op :: rest) = runContainerOps (applyContainerOp c op) rest := rfl
    rw [hrun]
    exact ⟨h3.1, h3.2.trans h2⟩

/-- C7: for every container and every sequence of addTile, insertTileAt,
removeTile and clear operations the tile count never exceeds the capacity;
addTile and insertTileAt refuse a full container unchanged; insertTileAt
clamps its index into `[0, length]` and inserts there; removeTile keeps a
contiguous, gap-free sequence (`take i ++ drop (i+1)`) for a valid index and
is a no-op for an invalid one. -/
theorem c7_container_ops_safe (c : TileContainer) (ops : List ContainerOp)
    (h : c.tiles.length ≤ c.maxTiles) :
    ((runContainerOps c ops).tiles.length ≤ (runContainerOps c ops).maxTiles ∧
      (runContainerOps c ops).maxTiles = c.maxTiles) ∧
    (∀ (d : TileContainer) (t : Tile), d.isFull = true →
      d.addTile t = (false, d) ∧ ∀ i : Int, d.insertTileAt t i = (false, d)) ∧
    (∀ (d : TileContainer) (t : Tile) (i : Int), d.isFull = false →
      TileContainer.clampIndex i d.tiles.length ≤ d.tiles.length ∧
      (d.insertTileAt t i).2.tiles
        = TileContainer.insertList (TileContainer.clampIndex i d.tiles.length) t d.tiles ∧
      (d.insertTileAt t i).2.tiles.length = d.tiles.length + 1) ∧
    (∀ (d : TileContainer) (i : Int),
      ((hpos : 0 ≤ i) → (hlt : i.toNat < d.tiles.length) →
        (d.removeTile i).1 = some (d.tiles.get ⟨i.toNat, hlt⟩) ∧
        (d.removeTile i).2.tiles = d.tiles.take i.toNat ++ d.tiles.drop (i.toNat + 1)) ∧
      (¬ (0 ≤ i ∧ i.toNat < d.tiles.length) → d.removeTile i = (none, d))) := by
  refine ⟨runContainerOps_capacity ops c h, ?_, ?_, ?_⟩
  · intro d t hfull
    have hge : d.maxTiles ≤ d.tiles.length := by
      simpa [TileContainer.isFull] using hfull
    constructor
    · simp [TileContainer.addTile, hge]
    · intro i
      simp [TileContainer.insertTileAt, hge]
  · intro d t i hfull
    have hlt : d.tiles.length < d.maxTiles := by
      simpa [TileContainer.isFull, Nat.lt_iff_add_one_le, Nat.not_le] using hfull
    refine ⟨?_, ?_, ?_⟩
    · exact Int.toNat_le.mpr (max_le (Int.natCast_nonneg _) (min_le_right _ _))
    · simp [TileContainer.insertTileAt, Nat.not_le.mpr hlt]
    · simp [TileContainer.insertTileAt, Nat.not_le.mpr hlt, insertList_length]
  · intro d i
    constructor
    · intro hpos hlt
      simp [TileContainer.removeTile, hpos, hlt, List.eraseIdx_eq_take_drop_succ]
    · intro hbad
      simp [TileContainer.removeTile, hbad]

/-- C7 witness: the capacity invariant and operation contracts at a concrete
container and operation sequence. -/
theorem c7_container_ops_safe_witness :
    (⟨[⟨'A', TileType.main⟩], 2⟩ : TileContainer).tiles.length ≤ 2 ∧
      ((runContainerOps ⟨[⟨'A', TileType.main⟩], 2⟩
          [ContainerOp.add ⟨'B', TileType.main⟩,
           ContainerOp.insertAt ⟨'C', TileType.main⟩ 0,
           ContainerOp.remove 1,
           ContainerOp.clearAll]).tiles.length ≤
        (runContainerOps ⟨[⟨'A', TileType.main⟩], 2⟩
          [ContainerOp.add ⟨'B', TileType.main⟩,
           ContainerOp.insertAt ⟨'C', TileType.main⟩ 0,
           ContainerOp.remove 1,
           ContainerOp.clearAll]).maxTiles) :=
  ⟨by decide,
    (c7_container_ops_safe ⟨[⟨'A', TileType.main⟩], 2⟩
      [ContainerOp.add ⟨'B', TileType.main⟩,
       ContainerOp.insertAt ⟨'C', TileType.main⟩ 0,
       ContainerOp.remove 1,
       ContainerOp.clearAll] (by decide)).1.1⟩

theorem playWordGo_owner (laneIdx rackIdx : List (Nat × Char)) :
    ∀ (w : List Char) (uL uR : List Nat) (lane : Lane) (rack : TileContainer)
      (ts : TileSet), lane.owner = none →
      (AI.playWordGo laneIdx rackIdx w uL uR lane rack ts).2.1.owner = none ∨
      (AI.playWordGo laneIdx rackIdx w uL uR lane rack ts).2.1.owner = some 2
  | [], _, _, lane, rack, ts, _ => by
    simp [AI.playWordGo, Lane.setOwner]
  | letter :: rest, uL, uR, lane, rack, ts, h => by
    have haddTile : ∀ t : Tile, ((lane.addTile t).2).owner = none := by
      intro t
      unfold Lane.addTile
      split <;> simp [h]
    unfold AI.playWordGo
    cases hll : AI.laneLetterLoop uL letter ts laneIdx with
    | some r =>
      obtain ⟨i, tile, ts1⟩ := r
      simpa using playWordGo_owner laneIdx rackIdx rest (i :: uL) uR _ rack ts1
        (haddTile tile)
    | none =>
      cases hrl : AI.rackLetterLoop uR letter rack.tiles rackIdx with
      | some r =>
        obtain ⟨i, rackIndex⟩ := r
        cases hrem : rack.removeTile (rackIndex : Int) with
        | mk tileOpt rack1 =>
          cases tileOpt with
          | some t =>
            simpa [hrem] using playWordGo_owner laneIdx rackIdx rest uL (i :: uR) _ rack1 ts
              (haddTile t)
          | none => simp [hrem, h]
      | none => simp [h]

theorem dealDamage_healthNonneg (b : Board) (target : Nat) (amount : Int)
    (h : healthNonneg b) : healthNonneg (b.dealDamage target amount) := by
  unfold Board.dealDamage
  by_cases ht : target = 1 <;>
    simp [ht, healthNonneg, le_max_left, h.1, h.2.1, h.2.2]

theorem processSpecialEffects_healthNonneg (b : Board) (lane : Lane)
    (h : healthNonneg b) : healthNonneg (b.processSpecialEffects lane).1 := by
  obtain ⟨h1, h2, h3⟩ := h
  simp only [Board.processSpecialEffects, Board.dealDamage, healthNonneg]
  split_ifs <;> simp_all <;> omega

theorem processCombat_healthNonneg (renv : RelicEnv) (b : Board)
    (h : healthNonneg b) : healthNonneg (b.processCombat renv) := by
  simp only [Board.processCombat]
  split_ifs <;>
    first
      | exact h
      | exact dealDamage_healthNonneg _ _ _ h
      | exact dealDamage_healthNonneg _ _ _ (dealDamage_healthNonneg _ _ _ h)

theorem runResolution_healthNonneg (ops : List ResolutionOp) :
    ∀ b : Board, healthNonneg b → healthNonneg (runResolution b ops) := by
  induction ops with
  | nil => exact fun b h => h
  | cons op rest ih =>
    intro b h
    have hstep : healthNonneg (applyResolutionOp b op) := by
      cases op with
      | combatStep renv => exact processCombat_healthNonneg renv b h
      | specialEffectsStep lane => exact processSpecialEffects_healthNonneg b lane h
    exact ih (applyResolutionOp b op) hstep

/-- C10: dealDamage clamps the targeted pool at zero for any damage amount,
and under any sequence of combat resolutions and special-effect (meteor)
steps both health pools stay non-negative. -/
theorem c10_health_never_negative :
    (∀ (b : Board) (amount : Int),
      (b.dealDamage 1 amount).playerHealth = max 0 (b.playerHealth - amount) ∧
      (b.dealDamage 1 amount).enemyHealth = b.enemyHealth ∧
      (b.dealDamage 2 amount).enemyHealth = max 0 (b.enemyHealth - amount) ∧
      (b.dealDamage 2 amount).playerHealth = b.playerHealth ∧
      0 ≤ (b.dealDamage 1 amount).playerHealth ∧
      0 ≤ (b.dealDamage 2 amount).enemyHealth) ∧
    (∀ (b : Board) (ops : List ResolutionOp), healthNonneg b →
      0 ≤ (runResolution b ops).playerHealth ∧ 0 ≤ (runResolution b ops).enemyHealth) := by
  constructor
  · intro b amount
    refine ⟨rfl, rfl, ?_, ?_, le_max_left 0 _, ?_⟩ <;>
      simp [Board.dealDamage]
  · intro b ops h
    have := runResolution_healthNonneg ops b h
    exact ⟨this.1, this.2.1⟩

/-- C10 witness: the invariant applied to a concrete board and resolution
sequence. -/
theorem c10_health_never_negative_witness :
    healthNonneg c1Board ∧
      (0 ≤ (runResolution c1Board [ResolutionOp.combatStep c1Renv,
              ResolutionOp.specialEffectsStep (mkLane "ANT" (some 2))]).playerHealth ∧
       0 ≤ (runResolution c1Board [ResolutionOp.combatStep c1Renv,
              ResolutionOp.specialEffectsStep (mkLane "ANT" (some 2))]).enemyHealth) :=
  ⟨by constructor <;> simp [c1Board, baseBoard, STARTING_HEALTH],
    c10_health_never_negative.2 c1Board
      [ResolutionOp.combatStep c1Renv,
       ResolutionOp.specialEffectsStep (mkLane "ANT" (some 2))]
      (by constructor <;> simp [c1Board, baseBoard, STARTING_HEALTH])⟩

theorem Lane.isEmpty_iff (l : Lane) : l.isEmpty = true ↔ l.tiles = [] := by
  simp [Lane.isEmpty, List.length_eq_zero]

theorem foldl_addTile_tiles (ts : List Tile) :
    ∀ l : Lane, l.tiles.length + ts.length ≤ LANE_MAX_TILES →
      (List.foldl (fun l t => (Lane.addTile l t).2) l ts).tiles = l.tiles ++ ts := by
  induction ts with
  | nil => intro l _; simp
  | cons t rest ih =>
    intro l h
    have hlen : l.tiles.length + rest.length + 1 ≤ LANE_MAX_TILES := by
      simpa [Nat.add_comm, Nat.add_left_comm] using h
    have hlt : ¬ LANE_MAX_TILES ≤ l.tiles.length := by omega
    have haddt : (Lane.addTile l t).2 = { l with tiles := l.tiles ++ [t] } := by
      simp [Lane.addTile, hlt]
    simp only [List.foldl_cons, haddt]
    rw [ih { l with tiles := l.tiles ++ [t] } (by simp; omega)]
    simp

theorem foldl_addTile_length_ge (ts : List Tile) :
    ∀ l : Lane, l.tiles.length ≤ (List.foldl (fun l t => (Lane.addTile l t).2) l ts).tiles.length := by
  induction ts with
  | nil => intro l; exact le_refl _
  | cons t rest ih =>
    intro l
    refine le_trans ?_ (ih (Lane.addTile l t).2)
    unfold Lane.addTile
    split <;> simp

theorem moveLaneTilesPair_spec (src dst : Lane) (hdst : dst.tiles = [])
    (hsrc : src.tiles.length ≤ LANE_MAX_TILES) :
    (Board.moveLaneTilesPair src dst).2.tiles
        = src.tiles.map (fun t => { t with type := TileType.steel }) ∧
    (Board.moveLaneTilesPair src dst).2.owner = src.owner ∧
    (Board.moveLaneTilesPair src dst).1.tiles = [] ∧
    (Board.moveLaneTilesPair src dst).1.owner = none := by
  have htr := foldl_addTile_tiles src.tiles dst (by rw [hdst]; simpa)
  refine ⟨?_, rfl, rfl, rfl⟩
  simp only [Board.moveLaneTilesPair, Lane.clear, Lane.setOwner]
  rw [htr, hdst]
  simp

theorem moveLaneTilesPair_dst_nonempty (src dst : Lane) (hdst : dst.tiles = [])
    (hsrc : src.tiles ≠ []) : (Board.moveLaneTilesPair src dst).2.tiles ≠ [] := by
  cases hs : src.tiles with
  | nil => exact absurd hs hsrc
  | cons t rest =>
    have h1 : (Lane.addTile dst t).2.tiles = [t] := by
      simp [Lane.addTile, hdst, LANE_MAX_TILES]
    have h2 := foldl_addTile_length_ge rest (Lane.addTile dst t).2
    rw [h1] at h2
    simp only [List.length_cons, List.length_nil] at h2
    simp only [Board.moveLaneTilesPair, Lane.clear, Lane.setOwner, hs, List.foldl_cons]
    intro hcon
    have hl := congrArg List.length hcon
    simp only [List.length_map, List.length_nil] at hl
    omega

theorem moveLaneTilesPair_src_empty (src dst : Lane) :
    (Board.moveLaneTilesPair src dst).1.tiles = [] := rfl

theorem lane_not_isEmpty_iff (l : Lane) : ¬ l.isEmpty = true ↔ l.tiles ≠ [] := by
  simp [Lane.isEmpty_iff]

theorem shiftTriple_post (l0 l1 l2 : Lane) :
    (Board.shiftStep01 (Board.shiftStep12 (Board.shiftStep01 (l0, l1, l2)))).1.tiles = [] →
    (Board.shiftStep01 (Board.shiftStep12 (Board.shiftStep01 (l0, l1, l2)))).2.1.tiles = [] ∧
    (Board.shiftStep01 (Board.shiftStep12 (Board.shiftStep01 (l0, l1, l2)))).2.2.tiles = [] := by
  by_cases h1 : (l0.isEmpty = true) ∧ ¬ (l1.isEmpty = true)
  · -- lane 1 moves into lane 0; new lane 0 is nonempty, so the conclusion
    -- holds vacuously in every later branch
    have hne : (Board.moveLaneTilesPair l1 l0).2.tiles ≠ [] :=
      moveLaneTilesPair_dst_nonempty l1 l0 ((Lane.isEmpty_iff l0).mp h1.1)
        ((lane_not_isEmpty_iff l1).mp h1.2)
    have hs1 : Board.shiftStep01 (l0, l1, l2)
        = ((Board.moveLaneTilesPair l1 l0).2, (Board.moveLaneTilesPair l1 l0).1, l2) := by
      simp [Board.shiftStep01, h1]
    rw [hs1]
    by_cases h2 : ((Board.moveLaneTilesPair l1 l0).1.isEmpty = true) ∧ ¬ (l2.isEmpty = true)
    · have hs2 : Board.shiftStep12
          ((Board.moveLaneTilesPair l1 l0).2, (Board.moveLaneTilesPair l1 l0).1, l2)
          = ((Board.moveLaneTilesPair l1 l0).2,
             (Board.moveLaneTilesPair l2 (Board.moveLaneTilesPair l1 l0).1).2,
             (Board.moveLaneTilesPair l2 (Board.moveLaneTilesPair l1 l0).1).1) := by
        simp [Board.shiftStep12, h2]
      rw [hs2]
      have hnotempty : ¬ ((Board.moveLaneTilesPair l1 l0).2.isEmpty = true) :=
        (lane_not_isEmpty_iff _).mpr hne
      have hs3 : Board.shiftStep01
          ((Board.moveLaneTilesPair l1 l0).2,
           (Board.moveLaneTilesPair l2 (Board.moveLaneTilesPair l1 l0).1).2,
           (Board.moveLaneTilesPair l2 (Board.moveLaneTilesPair l1 l0).1).1)
          = ((Board.moveLaneTilesPair l1 l0).2,
             (Board.moveLaneTilesPair l2 (Board.moveLaneTilesPair l1 l0).1).2,
             (Board.moveLaneTilesPair l2 (Board.moveLaneTilesPair l1 l0).1).1) := by
        simp [Board.shiftStep01]
        intro hcon
        exact absurd hcon hnotempty
      rw [hs3]
      intro h0
      exact absurd h0 hne
    · have hs2 : Board.shiftStep12
          ((Board.moveLaneTilesPair l1 l0).2, (Board.moveLaneTilesPair l1 l0).1, l2)
          = ((Board.moveLaneTilesPair l1 l0).2, (Board.moveLaneTilesPair l1 l0).1, l2) := by
        simp only [Board.shiftStep12, if_neg h2]
      rw [hs2]
      have hnotempty : ¬ ((Board.moveLaneTilesPair l1 l0).2.isEmpty = true) :=
        (lane_not_isEmpty_iff _).mpr hne
      have hs3 : Board.shiftStep01
          ((Board.moveLaneTilesPair l1 l0).2, (Board.moveLaneTilesPair l1 l0).1, l2)
          = ((Board.moveLaneTilesPair l1 l0).2, (Board.moveLaneTilesPair l1 l0).1, l2) := by
        simp [Board.shiftStep01]
        intro hcon
        exact absurd hcon hnotempty
      rw [hs3]
      intro h0
      exact absurd h0 hne
  · have hs1 : Board.shiftStep01 (l0, l1, l2) = (l0, l1, l2) := by
      simp only [Board.shiftStep01, if_neg h1]
    rw [hs1]
    by_cases h2 : (l1.isEmpty = true) ∧ ¬ (l2.isEmpty = true)
    · have hs2 : Board.shiftStep12 (l0, l1, l2)
          = (l0, (Board.moveLaneTilesPair l2 l1).2, (Board.moveLaneTilesPair l2 l1).1) := by
        simp [Board.shiftStep12, h2]
      rw [hs2]
      have hne : (Board.moveLaneTilesPair l2 l1).2.tiles ≠ [] :=
        moveLaneTilesPair_dst_nonempty l2 l1 ((Lane.isEmpty_iff l1).mp h2.1)
          ((lane_not_isEmpty_iff l2).mp h2.2)
      by_cases h3 : (l0.isEmpty = true) ∧ ¬ ((Board.moveLaneTilesPair l2 l1).2.isEmpty = true)
      · have hs3 : Board.shiftStep01
            (l0, (Board.moveLaneTilesPair l2 l1).2, (Board.moveLaneTilesPair l2 l1).1)
            = ((Board.moveLaneTilesPair (Board.moveLaneTilesPair l2 l1).2 l0).2,
               (Board.moveLaneTilesPair (Board.moveLaneTilesPair l2 l1).2 l0).1,
               (Board.moveLaneTilesPair l2 l1).1) := by
          simp [Board.shiftStep01, h3]
        rw [hs3]
        intro h0
        exact absurd h0 (moveLaneTilesPair_dst_nonempty _ _ ((Lane.isEmpty_iff l0).mp h3.1) hne)
      · have hs3 : Board.shiftStep01
            (l0, (Board.moveLaneTilesPair l2 l1).2, (Board.moveLaneTilesPair l2 l1).1)
            = (l0, (Board.moveLaneTilesPair l2 l1).2, (Board.moveLaneTilesPair l2 l1).1) := by
          simp only [Board.shiftStep01, if_neg h3]
        rw [hs3]
        intro h0
        exact absurd ((Lane.isEmpty_iff l0).mpr h0)
          (fun hl0 => h3 ⟨hl0, (lane_not_isEmpty_iff _).mpr hne⟩)
    · have hs2 : Board.shiftStep12 (l0, l1, l2) = (l0, l1, l2) := by
        simp only [Board.shiftStep12, if_neg h2]
      rw [hs2, hs1]
      intro h0
      have hl0 : l0.isEmpty = true := (Lane.isEmpty_iff l0).mpr h0
      have hl1 : l1.tiles = [] := by
        by_contra hne
        exact h1 ⟨hl0, (lane_not_isEmpty_iff l1).mpr hne⟩
      have hl2 : l2.tiles = [] := by
        by_contra hne
        exact h2 ⟨(Lane.isEmpty_iff l1).mpr hl1, (lane_not_isEmpty_iff l2).mpr hne⟩
      exact ⟨hl1, hl2⟩

/-- C5: the lane-shift pass is the terminating three-step sequence whose
single move transfers all tiles (converted to steel by setOwner) and the
ownership to the empty destination and empties the source; afterwards, if
lane 0 is empty then every lane is empty (so any lane holding a tile implies
lane 0 holds a tile). -/
theorem c5_shift_lanes_compacts :
    (∀ src dst : Lane, dst.tiles = [] → src.tiles.length ≤ LANE_MAX_TILES →
      (Board.moveLaneTilesPair src dst).2.tiles
          = src.tiles.map (fun t => { t with type := TileType.steel }) ∧
      (Board.moveLaneTilesPair src dst).2.owner = src.owner ∧
      (Board.moveLaneTilesPair src dst).1.tiles = [] ∧
      (Board.moveLaneTilesPair src dst).1.owner = none) ∧
    (∀ b : Board, (Board.shiftLanes b).lane0.tiles = [] →
      (Board.shiftLanes b).lane1.tiles = [] ∧ (Board.shiftLanes b).lane2.tiles = []) := by
  refine ⟨moveLaneTilesPair_spec, ?_⟩
  intro b
  have h := shiftTriple_post b.lane0 b.lane1 b.lane2
  exact h

/-- C5 witness: a board whose only tiles sit in lane 2 compacts so that the
emptiness of lane 0 forces emptiness everywhere; hypotheses checked at a
concrete board. -/
theorem c5_shift_lanes_compacts_witness :
    ((mkLane "" none).tiles = [] ∧ (mkLane "CAT" (some 2)).tiles.length ≤ LANE_MAX_TILES) ∧
    ((Board.moveLaneTilesPair (mkLane "CAT" (some 2)) (mkLane "" none)).2.tiles
        = (mkLane "CAT" (some 2)).tiles.map (fun t => { t with type := TileType.steel }) ∧
      (Board.moveLaneTilesPair (mkLane "CAT" (some 2)) (mkLane "" none)).2.owner
        = (mkLane "CAT" (some 2)).owner ∧
      (Board.moveLaneTilesPair (mkLane "CAT" (some 2)) (mkLane "" none)).1.tiles = [] ∧
      (Board.moveLaneTilesPair (mkLane "CAT" (some 2)) (mkLane "" none)).1.owner = none) :=
  ⟨⟨by decide, by decide⟩,
    c5_shift_lanes_compacts.1 (mkLane "CAT" (some 2)) (mkLane "" none)
      (by decide) (by decide)⟩

theorem removeFirstMatch_some_spec (letter : Char) :
    ∀ (l rest : List TileData) (d : TileData),
      TileSet.removeFirstMatch letter l = some (d, rest) →
      d.letter.toUpper = letter ∧ List.Perm (d :: rest) l := by
  intro l
  induction l with
  | nil => intro rest d h; exact absurd h (by simp [TileSet.removeFirstMatch])
  | cons x tl ih =>
    intro rest d h
    by_cases hx : x.letter.toUpper = letter
    · simp only [TileSet.removeFirstMatch, if_pos hx, Option.some.injEq, Prod.mk.injEq] at h
      obtain ⟨hd, hrest⟩ := h
      subst hd; subst hrest
      exact ⟨hx, List.Perm.refl _⟩
    · simp only [TileSet.removeFirstMatch, if_neg hx] at h
      cases hrec : TileSet.removeFirstMatch letter tl with
      | none => rw [hrec] at h; simp at h
      | some p =>
        obtain ⟨y, l2⟩ := p
        rw [hrec] at h
        simp only [Option.some.injEq, Prod.mk.injEq] at h
        obtain ⟨hd, hrest⟩ := h
        subst hd; subst hrest
        have hspec := ih l2 y hrec
        exact ⟨hspec.1, (List.Perm.swap x y l2).trans (hspec.2.cons x)⟩

theorem removeFirstMatch_none_spec (letter : Char) :
    ∀ l : List TileData, TileSet.removeFirstMatch letter l = none →
      ∀ d ∈ l, d.letter.toUpper ≠ letter := by
  intro l
  induction l with
  | nil => intro _ d hd; exact absurd hd (List.not_mem_nil d)
  | cons x tl ih =>
    intro h d hd
    by_cases hx : x.letter.toUpper = letter
    · simp [TileSet.removeFirstMatch, hx] at h
    · simp only [TileSet.removeFirstMatch, if_neg hx] at h
      cases hrec : TileSet.removeFirstMatch letter tl with
      | none =>
        rcases List.mem_cons.mp hd with h1 | h1
        · subst h1; exact hx
        · exact ih hrec d h1
      | some p => rw [hrec] at h; simp at h

theorem extractAt_some_spec :
    ∀ (n : Nat) (l rest : List TileData) (d : TileData),
      TileSet.extractAt n l = some (d, rest) → List.Perm (d :: rest) l := by
  intro n
  induction n with
  | zero =>
    intro l rest d h
    cases l with
    | nil => exact absurd h (by simp [TileSet.extractAt])
    | cons x tl =>
      simp only [TileSet.extractAt, Option.some.injEq, Prod.mk.injEq] at h
      obtain ⟨hd, hrest⟩ := h
      subst hd; subst hrest
      exact List.Perm.refl _
  | succ n ih =>
    intro l rest d h
    cases l with
    | nil => exact absurd h (by simp [TileSet.extractAt])
    | cons x tl =>
      simp only [TileSet.extractAt] at h
      cases hrec : TileSet.extractAt n tl with
      | none => rw [hrec] at h; simp at h
      | some p =>
        obtain ⟨y, l2⟩ := p
        rw [hrec] at h
        simp only [Option.some.injEq, Prod.mk.injEq] at h
        obtain ⟨hd, hrest⟩ := h
        subst hd; subst hrest
        exact (List.Perm.swap x y l2).trans ((ih tl l2 y hrec).cons x)

theorem extractAt_none_spec :
    ∀ (n : Nat) (l : List TileData), TileSet.extractAt n l = none → l.length ≤ n := by
  intro n
  induction n with
  | zero =>
    intro l h
    cases l with
    | nil => simp
    | cons x tl => simp [TileSet.extractAt] at h
  | succ n ih =>
    intro l h
    cases l with
    | nil => simp
    | cons x tl =>
      simp only [TileSet.extractAt] at h
      cases hrec : TileSet.extractAt n tl with
      | none => simpa [Nat.succ_le_succ_iff] using ih tl hrec
      | some p => rw [hrec] at h; simp at h

theorem drawTile_empty (ts : TileSet) (specificLetter : Option Char) (r : Nat)
    (h : ts.remainingTiles = []) : ts.drawTile specificLetter r = (none, ts) := by
  simp [TileSet.drawTile, h]

theorem drawTile_letter_none (ts : TileSet) (letter : Char) (r : Nat)
    (h : ∀ d ∈ ts.remainingTiles, d.letter.toUpper ≠ letter.toUpper) :
    ts.drawTile (some letter) r = (none, ts) := by
  by_cases hlen : ts.remainingTiles.length = 0
  · exact drawTile_empty ts (some letter) r (List.eq_nil_of_length_eq_zero hlen)
  · simp only [TileSet.drawTile, if_neg hlen]
    cases hm : TileSet.removeFirstMatch letter.toUpper ts.remainingTiles with
    | none => rfl
    | some p =>
      obtain ⟨d, rest⟩ := p
      have hspec := removeFirstMatch_some_spec letter.toUpper ts.remainingTiles rest d hm
      have hd : d ∈ ts.remainingTiles := hspec.2.mem_iff.mp (List.mem_cons_self d rest)
      exact absurd hspec.1 (h d hd)

theorem drawTile_letter_some (ts : TileSet) (letter : Char) (r : Nat) (d : TileData)
    (hd : d ∈ ts.remainingTiles) (hm : d.letter.toUpper = letter.toUpper) :
    ∃ (d0 : TileData) (rest : List TileData),
      ts.drawTile (some letter) r = (some (TileSet.createTileFromData d0), ⟨rest⟩) ∧
      d0.letter.toUpper = letter.toUpper ∧
      List.Perm (d0 :: rest) ts.remainingTiles ∧
      rest.length + 1 = ts.remainingTiles.length := by
  have hlen : ¬ ts.remainingTiles.length = 0 := by
    intro h0
    rw [List.eq_nil_of_length_eq_zero h0] at hd
    exact absurd hd (List.not_mem_nil d)
  simp only [TileSet.drawTile, if_neg hlen]
  cases hmatch : TileSet.removeFirstMatch letter.toUpper ts.remainingTiles with
  | none => exact absurd hm (removeFirstMatch_none_spec letter.toUpper ts.remainingTiles hmatch d hd)
  | some p =>
    obtain ⟨d0, rest⟩ := p
    have hspec := removeFirstMatch_some_spec letter.toUpper ts.remainingTiles rest d0 hmatch
    exact ⟨d0, rest, rfl, hspec.1, hspec.2, by simpa using hspec.2.length_eq⟩

theorem drawTile_random_some (ts : TileSet) (r : Nat)
    (h : ¬ ts.remainingTiles.length = 0) :
    ∃ (d : TileData) (rest : List TileData),
      ts.drawTile none r = (some (TileSet.createTileFromData d), ⟨rest⟩) ∧
      List.Perm (d :: rest) ts.remainingTiles ∧
      rest.length + 1 = ts.remainingTiles.length := by
  simp only [TileSet.drawTile, if_neg h]
  cases hex : TileSet.extractAt (r % ts.remainingTiles.length) ts.remainingTiles with
  | none =>
    have := extractAt_none_spec _ _ hex
    have hmod := Nat.mod_lt r (Nat.pos_of_ne_zero h)
    omega
  | some p =>
    obtain ⟨d, rest⟩ := p
    have hperm := extractAt_some_spec _ _ _ _ hex
    exact ⟨d, rest, rfl, hperm, by simpa using hperm.length_eq⟩

theorem drawTile_random_none (ts ts1 : TileSet) (r : Nat)
    (h : ts.drawTile none r = (none, ts1)) : ts1 = ts ∧ ts.remainingTiles = [] := by
  by_cases hlen : ts.remainingTiles.length = 0
  · rw [drawTile_empty ts none r (List.eq_nil_of_length_eq_zero hlen)] at h
    simp only [Prod.mk.injEq, true_and] at h
    exact ⟨h.symm, List.eq_nil_of_length_eq_zero hlen⟩
  · obtain ⟨d, rest, heq, -, -⟩ := drawTile_random_some ts r hlen
    rw [heq] at h
    simp at h

theorem drawTile_random_length (ts ts1 : TileSet) (r : Nat) (t : Tile)
    (h : ts.drawTile none r = (some t, ts1)) :
    ts1.remainingTiles.length + 1 = ts.remainingTiles.length := by
  by_cases hlen : ts.remainingTiles.length = 0
  · rw [drawTile_empty ts none r (List.eq_nil_of_length_eq_zero hlen)] at h
    simp at h
  · obtain ⟨d, rest, heq, -, hl⟩ := drawTile_random_some ts r hlen
    rw [heq] at h
    simp only [Prod.mk.injEq] at h
    rw [← h.2]
    exact hl

theorem addTile_maxTiles (c : TileContainer) (t : Tile) :
    (c.addTile t).2.maxTiles = c.maxTiles := by
  unfold TileContainer.addTile
  split <;> rfl

theorem addTile_length_le (c : TileContainer) (t : Tile)
    (h : c.tiles.length ≤ c.maxTiles) : (c.addTile t).2.tiles.length ≤ c.maxTiles := by
  unfold TileContainer.addTile
  split
  · exact h
  · rename_i hlt
    simp only [List.length_append, List.length_cons, List.length_nil]
    omega

theorem fillLoop_post (rnd : Nat → Nat) :
    ∀ (fuel k : Nat) (rack : TileContainer) (ts : TileSet),
      ts.remainingTiles.length ≤ fuel →
      ((fillLoop rnd fuel k rack ts).1.isFull = true ∨
        (fillLoop rnd fuel k rack ts).2.remainingTiles = []) := by
  intro fuel
  induction fuel with
  | zero =>
    intro k rack ts h
    exact Or.inr (List.eq_nil_of_length_eq_zero (Nat.le_zero.mp h))
  | succ f ih =>
    intro k rack ts h
    simp only [fillLoop]
    by_cases hfull : rack.isFull = true
    · simp only [if_pos hfull]
      exact Or.inl hfull
    · simp only [if_neg hfull]
      cases hdraw : ts.drawTile none (rnd k) with
      | mk t1 ts1 =>
        cases t1 with
        | none =>
          obtain ⟨he, hnil⟩ := drawTile_random_none ts ts1 (rnd k) hdraw
          exact Or.inr (by rw [he]; exact hnil)
        | some t =>
          have hlen := drawTile_random_length ts ts1 (rnd k) t hdraw
          exact ih (k + 1) (rack.addTile t).2 ts1 (by omega)

theorem fillLoop_maxTiles (rnd : Nat → Nat) :
    ∀ (fuel k : Nat) (rack : TileContainer) (ts : TileSet),
      (fillLoop rnd fuel k rack ts).1.maxTiles = rack.maxTiles := by
  intro fuel
  induction fuel with
  | zero => intro k rack ts; rfl
  | succ f ih =>
    intro k rack ts
    simp only [fillLoop]
    by_cases hfull : rack.isFull = true
    · simp [hfull]
    · simp only [if_neg hfull]
      cases hdraw : ts.drawTile none (rnd k) with
      | mk t1 ts1 =>
        cases t1 with
        | none => rfl
        | some t => exact (ih (k + 1) (rack.addTile t).2 ts1).trans (addTile_maxTiles rack t)

theorem fillLoop_length (rnd : Nat → Nat) :
    ∀ (fuel k : Nat) (rack : TileContainer) (ts : TileSet),
      rack.tiles.length ≤ rack.maxTiles →
      (fillLoop rnd fuel k rack ts).1.tiles.length ≤ rack.maxTiles := by
  intro fuel
  induction fuel with
  | zero => intro k rack ts h; exact h
  | succ f ih =>
    intro k rack ts h
    simp only [fillLoop]
    by_cases hfull : rack.isFull = true
    · simp only [if_pos hfull]
      exact h
    · simp only [if_neg hfull]
      cases hdraw : ts.drawTile none (rnd k) with
      | mk t1 ts1 =>
        cases t1 with
        | none => exact h
        | some t =>
          have := ih (k + 1) (rack.addTile t).2 ts1
            (by rw [addTile_maxTiles]; exact addTile_length_le rack t h)
          rwa [addTile_maxTiles] at this

theorem drawRequiredLoop_maxTiles (currentLetters : List Char) :
    ∀ (req : List Char) (rack : TileContainer) (ts : TileSet),
      (drawRequiredLoop currentLetters req rack ts).1.maxTiles = rack.maxTiles := by
  intro req
  induction req with
  | nil => intro rack ts; rfl
  | cons c rest ih =>
    intro rack ts
    simp only [drawRequiredLoop]
    split
    · cases hdraw : ts.drawTile (some c.toUpper) 0 with
      | mk t1 ts1 =>
        cases t1 with
        | some t => exact (ih (rack.addTile t).2 ts1).trans (addTile_maxTiles rack t)
        | none => exact ih rack ts1
    · exact ih rack ts

theorem drawRequiredLoop_length (currentLetters : List Char) :
    ∀ (req : List Char) (rack : TileContainer) (ts : TileSet),
      rack.tiles.length ≤ rack.maxTiles →
      (drawRequiredLoop currentLetters req rack ts).1.tiles.length
        ≤ rack.maxTiles := by
  intro req
  induction req with
  | nil => intro rack ts h; exact h
  | cons c rest ih =>
    intro rack ts h
    simp only [drawRequiredLoop]
    split
    · cases hdraw : ts.drawTile (some c.toUpper) 0 with
      | mk t1 ts1 =>
        cases t1 with
        | some t =>
          have := ih (rack.addTile t).2 ts1
            (by rw [addTile_maxTiles]; exact addTile_length_le rack t h)
          rwa [addTile_maxTiles] at this
        | none => exact ih rack ts1 h
    · exact ih rack ts h

/-- C6: drawTile yields `none` on an empty working copy; a letter draw with
no matching tile yields `none` and leaves the pool unchanged, and with a
match removes exactly one matching tile; fillRack absorbs null draws by
stopping early — the refilled rack is either full or the pool is exhausted,
and the rack never exceeds its capacity. -/
theorem c6_draw_and_refill_tolerant :
    (∀ (ts : TileSet) (specificLetter : Option Char) (r : Nat),
      ts.remainingTiles = [] → ts.drawTile specificLetter r = (none, ts)) ∧
    (∀ (ts : TileSet) (letter : Char) (r : Nat),
      (∀ d ∈ ts.remainingTiles, d.letter.toUpper ≠ letter.toUpper) →
      ts.drawTile (some letter) r = (none, ts)) ∧
    (∀ (ts : TileSet) (letter : Char) (r : Nat) (d : TileData),
      d ∈ ts.remainingTiles → d.letter.toUpper = letter.toUpper →
      ∃ (d0 : TileData) (rest : List TileData),
        ts.drawTile (some letter) r = (some (TileSet.createTileFromData d0), ⟨rest⟩) ∧
        d0.letter.toUpper = letter.toUpper ∧
        List.Perm (d0 :: rest) ts.remainingTiles ∧
        rest.length + 1 = ts.remainingTiles.length) ∧
    (∀ (requiredLetters : List Char) (rnd : Nat → Nat) (rack : TileContainer)
        (ts : TileSet),
      ((fillRack requiredLetters rnd rack ts).1.isFull = true ∨
        (fillRack requiredLetters rnd rack ts).2.remainingTiles = []) ∧
      (fillRack requiredLetters rnd rack ts).1.maxTiles = rack.maxTiles ∧
      (rack.tiles.length ≤ rack.maxTiles →
        (fillRack requiredLetters rnd rack ts).1.tiles.length ≤ rack.maxTiles)) := by
  refine ⟨drawTile_empty, drawTile_letter_none, ?_, ?_⟩
  · intro ts letter r d hd hm
    exact drawTile_letter_some ts letter r d hd hm
  · intro requiredLetters rnd rack ts
    refine ⟨?_, ?_, ?_⟩
    · exact fillLoop_post rnd _ 0 _ _ (le_refl _)
    · exact (fillLoop_maxTiles rnd _ 0 _ _).trans
        (drawRequiredLoop_maxTiles rack.getLetters requiredLetters rack ts)
    · intro h
      have h1 := drawRequiredLoop_length rack.getLetters requiredLetters rack ts h
      have h2 := fillLoop_length rnd
        (drawRequiredLoop rack.getLetters requiredLetters rack ts).2.remainingTiles.length 0
        (drawRequiredLoop rack.getLetters requiredLetters rack ts).1
        (drawRequiredLoop rack.getLetters requiredLetters rack ts).2
        (by rw [drawRequiredLoop_maxTiles]; exact h1)
      rw [drawRequiredLoop_maxTiles] at h2
      exact h2

/-- C6 witness: the facts applied to a pool holding one tile and an empty
rack of capacity one. -/
theorem c6_draw_and_refill_tolerant_witness :
    ((⟨[]⟩ : TileSet).remainingTiles = [] ∧
      (⟨[]⟩ : TileSet).drawTile none 0 = (none, (⟨[]⟩ : TileSet))) ∧
    ((fillRack [] (fun _ => 0) ⟨[], 1⟩ ⟨[⟨'A', none⟩]⟩).1.isFull = true ∨
      (fillRack [] (fun _ => 0) ⟨[], 1⟩ ⟨[⟨'A', none⟩]⟩).2.remainingTiles = []) :=
  ⟨⟨rfl, c6_draw_and_refill_tolerant.1 ⟨[]⟩ none 0 rfl⟩,
    (c6_draw_and_refill_tolerant.2.2.2 [] (fun _ => 0) ⟨[], 1⟩ ⟨[⟨'A', none⟩]⟩).1⟩

theorem validate_check_shape (acc : List Nat) (i : Nat) (hasNew ex : Bool)
    (lenLt : Prop) [Decidable lenLt] :
    (if ¬ hasNew = true then acc
     else if lenLt then acc ++ [i]
     else if ¬ ex = true then acc ++ [i]
     else acc)
    = acc ++ (if hasNew = true ∧ (lenLt ∨ ex = false) then [i] else []) := by
  by_cases h1 : hasNew = true <;> by_cases h2 : lenLt <;> by_cases h3 : ex = true <;>
    simp [h1, h2, h3]

theorem validateAllWords_eq (env : DictEnv) (b : Board) :
    Board.validateAllWords env b =
      (if badLane env b b.lane0 then [0] else []) ++
      (if badLane env b b.lane1 then [1] else []) ++
      (if badLane env b b.lane2 then [2] else []) := by
  simp only [Board.validateAllWords]
  rw [validate_check_shape, validate_check_shape, validate_check_shape]
  simp only [List.nil_append, List.append_assoc]
  rfl

theorem validateAllWords_mem (env : DictEnv) (b : Board) (i : Nat) :
    i ∈ Board.validateAllWords env b ↔
      ((i = 0 ∧ badLane env b b.lane0) ∨ (i = 1 ∧ badLane env b b.lane1) ∨
        (i = 2 ∧ badLane env b b.lane2)) := by
  rw [validateAllWords_eq]
  by_cases h0 : badLane env b b.lane0 <;> by_cases h1 : badLane env b b.lane1 <;>
    by_cases h2 : badLane env b b.lane2 <;>
    simp [h0, h1, h2]

theorem validateAllWords_ne_nil (env : DictEnv) (b : Board)
    (hbad : badLane env b b.lane0 ∨ badLane env b b.lane1 ∨ badLane env b b.lane2) :
    Board.validateAllWords env b ≠ [] := by
  rw [validateAllWords_eq]
  rcases hbad with h | h | h <;> simp [h]

/-- C2: in the playing phase, a submit with some lane that gained tiles but
holds a too-short or non-dictionary word returns false, reports exactly the
offending lane indices via validateAllWords, and leaves the board untouched
(ownership, hand and phase unchanged, so the submit can be retried). -/
theorem c2_invalid_submit_rejected (env : DictEnv) (requiredLetters : List Char)
    (rnd : Nat → Nat) (b : Board)
    (hphase : b.state = Phase.playing)
    (hbad : badLane env b b.lane0 ∨ badLane env b b.lane1 ∨ badLane env b b.lane2) :
    (Board.endTurn env requiredLetters rnd b).1 = false ∧
    (Board.endTurn env requiredLetters rnd b).2 = b ∧
    (∀ i : Nat, i ∈ Board.validateAllWords env b ↔
      ((i = 0 ∧ badLane env b b.lane0) ∨ (i = 1 ∧ badLane env b b.lane1) ∨
        (i = 2 ∧ badLane env b b.lane2))) ∧
    (Board.endTurn env requiredLetters rnd b).2.lane0.owner = b.lane0.owner ∧
    (Board.endTurn env requiredLetters rnd b).2.lane1.owner = b.lane1.owner ∧
    (Board.endTurn env requiredLetters rnd b).2.lane2.owner = b.lane2.owner ∧
    (Board.endTurn env requiredLetters rnd b).2.playerRack = b.playerRack ∧
    (Board.endTurn env requiredLetters rnd b).2.state = Phase.playing := by
  have hne := validateAllWords_ne_nil env b hbad
  have hend : Board.endTurn env requiredLetters rnd b = (false, b) := by
    simp only [Board.endTurn]
    rw [if_neg (fun hc => hc hphase), if_pos hne]
  refine ⟨by rw [hend], by rw [hend], validateAllWords_mem env b, ?_, ?_, ?_, ?_, ?_⟩ <;>
    (rw [hend]; try (first | rfl | exact hphase))

/-- C2 witness: the rejection at a board whose lane 0 gained the single
letter Q. -/
theorem c2_invalid_submit_rejected_witness :
    (c2Board.state = Phase.playing ∧ badLane c2Env c2Board c2Board.lane0) ∧
    (Board.endTurn c2Env [] (fun _ => 0) c2Board).1 = false ∧
    (Board.endTurn c2Env [] (fun _ => 0) c2Board).2 = c2Board :=
  ⟨⟨rfl, by constructor <;> simp [c2Board, baseBoard, mkLane, Lane.hasNewTiles,
      Lane.getWord, MIN_WORD_LENGTH]⟩,
    (c2_invalid_submit_rejected c2Env [] (fun _ => 0) c2Board rfl
      (Or.inl (by constructor <;> simp [c2Board, baseBoard, mkLane, Lane.hasNewTiles,
        Lane.getWord, MIN_WORD_LENGTH]))).1,
    (c2_invalid_submit_rejected c2Env [] (fun _ => 0) c2Board rfl
      (Or.inl (by constructor <;> simp [c2Board, baseBoard, mkLane, Lane.hasNewTiles,
        Lane.getWord, MIN_WORD_LENGTH]))).2.1⟩

theorem createTileFromData_letter (d : TileData) :
    (TileSet.createTileFromData d).letter = d.letter := by
  cases hd : d.power <;> simp [TileSet.createTileFromData, hd]

theorem drawTile_none_eq (ts ts1 : TileSet) (specificLetter : Option Char) (r : Nat)
    (h : ts.drawTile specificLetter r = (none, ts1)) : ts1 = ts := by
  by_cases hlen : ts.remainingTiles.length = 0
  · rw [drawTile_empty ts specificLetter r (List.eq_nil_of_length_eq_zero hlen)] at h
    simp only [Prod.mk.injEq, true_and] at h
    exact h.symm
  · cases specificLetter with
    | none =>
      obtain ⟨d, rest, heq, -, -⟩ := drawTile_random_some ts r hlen
      rw [heq] at h
      simp at h
    | some L =>
      simp only [TileSet.drawTile, if_neg hlen] at h
      cases hm : TileSet.removeFirstMatch L.toUpper ts.remainingTiles with
      | none =>
        rw [hm] at h
        simp only [Prod.mk.injEq, true_and] at h
        exact h.symm
      | some p =>
        obtain ⟨d, rest⟩ := p
        rw [hm] at h
        simp at h

theorem drawTile_some_conservation (ts ts1 : TileSet) (specificLetter : Option Char)
    (r : Nat) (t : Tile) (h : ts.drawTile specificLetter r = (some t, ts1)) :
    List.Perm (t.letter :: ts1.poolLetters) ts.poolLetters := by
  by_cases hlen : ts.remainingTiles.length = 0
  · rw [drawTile_empty ts specificLetter r (List.eq_nil_of_length_eq_zero hlen)] at h
    simp at h
  · cases specificLetter with
    | none =>
      obtain ⟨d, rest, heq, hperm, -⟩ := drawTile_random_some ts r hlen
      rw [heq] at h
      simp only [Prod.mk.injEq, Option.some.injEq] at h
      obtain ⟨ht, hts⟩ := h
      subst ht
      rw [← hts]
      simpa [TileSet.poolLetters, createTileFromData_letter] using hperm.map TileData.letter
    | some L =>
      simp only [TileSet.drawTile, if_neg hlen] at h
      cases hm : TileSet.removeFirstMatch L.toUpper ts.remainingTiles with
      | none => rw [hm] at h; simp at h
      | some p =>
        obtain ⟨d, rest⟩ := p
        have hspec := removeFirstMatch_some_spec L.toUpper ts.remainingTiles rest d hm
        rw [hm] at h
        simp only [Prod.mk.injEq, Option.some.injEq] at h
        obtain ⟨ht, hts⟩ := h
        subst ht
        rw [← hts]
        simpa [TileSet.poolLetters, createTileFromData_letter] using hspec.2.map TileData.letter

theorem returnTile_poolLetters (ts : TileSet) (t : Tile) :
    (ts.returnTile t).poolLetters = ts.poolLetters ++ [t.letter] := by
  simp [TileSet.returnTile, TileSet.poolLetters]

theorem foldl_returnTile_poolLetters (tiles : List Tile) :
    ∀ ts : TileSet, (tiles.foldl TileSet.returnTile ts).poolLetters
      = ts.poolLetters ++ tiles.map Tile.letter := by
  induction tiles with
  | nil => intro ts; simp
  | cons t rest ih =>
    intro ts
    simp only [List.foldl_cons, List.map_cons]
    rw [ih (ts.returnTile t), returnTile_poolLetters]
    simp

theorem addTile_not_full_getLetters (c : TileContainer) (t : Tile)
    (h : ¬ c.isFull = true) :
    (c.addTile t).2.getLetters = c.getLetters ++ [t.letter] := by
  have hlt : ¬ c.maxTiles ≤ c.tiles.length := by
    simpa [TileContainer.isFull] using h
  simp [TileContainer.addTile, hlt, TileContainer.getLetters]

theorem drawRequiredLoop_conserves (cur : List Char) :
    ∀ (req : List Char) (rack : TileContainer) (ts : TileSet),
      List.Perm ((drawRequiredLoop cur req rack ts).1.getLetters ++
          (drawRequiredLoop cur req rack ts).2.poolLetters)
        (rack.getLetters ++ ts.poolLetters) := by
  intro req
  induction req with
  | nil => intro rack ts; exact List.Perm.refl _
  | cons c rest ih =>
    intro rack ts
    simp only [drawRequiredLoop]
    split
    · rename_i hguard
      cases hdraw : ts.drawTile (some c.toUpper) 0 with
      | mk t1 ts1 =>
        cases t1 with
        | some t =>
          refine (ih (rack.addTile t).2 ts1).trans ?_
          rw [addTile_not_full_getLetters rack t (by
            intro hf
            exact hguard.2 hf)]
          have hcons := drawTile_some_conservation ts ts1 (some c.toUpper) 0 t hdraw
          have heq : (rack.getLetters ++ [t.letter]) ++ ts1.poolLetters
              = rack.getLetters ++ (t.letter :: ts1.poolLetters) := by simp
          rw [heq]
          exact hcons.append_left rack.getLetters
        | none =>
          have := drawTile_none_eq ts ts1 (some c.toUpper) 0 hdraw
          subst this
          exact ih rack ts1
    · exact ih rack ts

theorem fillLoop_conserves (rnd : Nat → Nat) :
    ∀ (fuel k : Nat) (rack : TileContainer) (ts : TileSet),
      List.Perm ((fillLoop rnd fuel k rack ts).1.getLetters ++
          (fillLoop rnd fuel k rack ts).2.poolLetters)
        (rack.getLetters ++ ts.poolLetters) := by
  intro fuel
  induction fuel with
  | zero => intro k rack ts; exact List.Perm.refl _
  | succ f ih =>
    intro k rack ts
    simp only [fillLoop]
    by_cases hfull : rack.isFull = true
    · simp only [if_pos hfull]
      exact List.Perm.refl _
    · simp only [if_neg hfull]
      cases hdraw : ts.drawTile none (rnd k) with
      | mk t1 ts1 =>
        cases t1 with
        | none =>
          have := (drawTile_random_none ts ts1 (rnd k) hdraw).1
          subst this
          exact List.Perm.refl _
        | some t =>
          refine (ih (k + 1) (rack.addTile t).2 ts1).trans ?_
          rw [addTile_not_full_getLetters rack t hfull]
          have hcons := drawTile_some_conservation ts ts1 none (rnd k) t hdraw
          have heq : (rack.getLetters ++ [t.letter]) ++ ts1.poolLetters
              = rack.getLetters ++ (t.letter :: ts1.poolLetters) := by simp
          rw [heq]
          exact hcons.append_left rack.getLetters

theorem fillRack_conserves (requiredLetters : List Char) (rnd : Nat → Nat)
    (rack : TileContainer) (ts : TileSet) :
    List.Perm ((fillRack requiredLetters rnd rack ts).1.getLetters ++
        (fillRack requiredLetters rnd rack ts).2.poolLetters)
      (rack.getLetters ++ ts.poolLetters) := by
  simp only [fillRack]
  exact (fillLoop_conserves rnd _ 0 _ _).trans
    (drawRequiredLoop_conserves rack.getLetters requiredLetters rack ts)

theorem fillRack_post (requiredLetters : List Char) (rnd : Nat → Nat)
    (rack : TileContainer) (ts : TileSet) :
    (fillRack requiredLetters rnd rack ts).1.isFull = true ∨
      (fillRack requiredLetters rnd rack ts).2.remainingTiles = [] := by
  simp only [fillRack]
  exact fillLoop_post rnd _ 0 _ _ (le_refl _)

/-- C8: mulligan on the acting (human) side returns the entire hand to the
pool and redraws (the refilled hand is full unless the pool runs out, and
the combined rack-plus-pool letter multiset is conserved); the normal mode
decrements the allowance by one and sets the per-turn flag, the forced
hand-full mode leaves both untouched; health pools, lanes, phase, turn and
the enemy containers are unchanged in both modes. -/
theorem c8_mulligan_frame (requiredLetters : List Char) (rnd : Nat → Nat)
    (b : Board) (h : b.currentPlayer = 1) :
    ((b.mulligan requiredLetters rnd false).mulliganCount = b.mulliganCount - 1 ∧
      (b.mulligan requiredLetters rnd false).hasUsedMulligan = true) ∧
    ((b.mulligan requiredLetters rnd true).mulliganCount = b.mulliganCount ∧
      (b.mulligan requiredLetters rnd true).hasUsedMulligan = b.hasUsedMulligan) ∧
    (∀ full : Bool,
      ((b.mulligan requiredLetters rnd full).playerRack.isFull = true ∨
        (b.mulligan requiredLetters rnd full).playerTileSet.remainingTiles = []) ∧
      List.Perm ((b.mulligan requiredLetters rnd full).playerRack.getLetters ++
          (b.mulligan requiredLetters rnd full).playerTileSet.poolLetters)
        (b.playerRack.getLetters ++ b.playerTileSet.poolLetters) ∧
      (b.mulligan requiredLetters rnd full).playerHealth = b.playerHealth ∧
      (b.mulligan requiredLetters rnd full).playerMaxHealth = b.playerMaxHealth ∧
      (b.mulligan requiredLetters rnd full).enemyHealth = b.enemyHealth ∧
      (b.mulligan requiredLetters rnd full).enemyMaxHealth = b.enemyMaxHealth ∧
      (b.mulligan requiredLetters rnd full).lane0 = b.lane0 ∧
      (b.mulligan requiredLetters rnd full).lane1 = b.lane1 ∧
      (b.mulligan requiredLetters rnd full).lane2 = b.lane2 ∧
      (b.mulligan requiredLetters rnd full).state = b.state ∧
      (b.mulligan requiredLetters rnd full).currentPlayer = b.currentPlayer ∧
      (b.mulligan requiredLetters rnd full).enemyRack = b.enemyRack ∧
      (b.mulligan requiredLetters rnd full).enemyTileSet = b.enemyTileSet) := by
  have hcur : ¬ b.currentPlayer ≠ 1 := fun hc => hc h
  have hMf : b.mulligan requiredLetters rnd false =
      { b with
        playerRack := (fillRack requiredLetters rnd { b.playerRack with tiles := [] }
          (b.playerRack.tiles.foldl TileSet.returnTile b.playerTileSet)).1
        playerTileSet := (fillRack requiredLetters rnd { b.playerRack with tiles := [] }
          (b.playerRack.tiles.foldl TileSet.returnTile b.playerTileSet)).2
        mulliganCount := b.mulliganCount - 1
        hasUsedMulligan := true } := by
    simp only [Board.mulligan, if_neg hcur]
    rfl
  have hMt : b.mulligan requiredLetters rnd true =
      { b with
        playerRack := (fillRack requiredLetters rnd { b.playerRack with tiles := [] }
          (b.playerRack.tiles.foldl TileSet.returnTile b.playerTileSet)).1
        playerTileSet := (fillRack requiredLetters rnd { b.playerRack with tiles := [] }
          (b.playerRack.tiles.foldl TileSet.returnTile b.playerTileSet)).2 } := by
    simp only [Board.mulligan, if_neg hcur]
    rfl
  have hcons : List.Perm ((fillRack requiredLetters rnd { b.playerRack with tiles := [] }
        (b.playerRack.tiles.foldl TileSet.returnTile b.playerTileSet)).1.getLetters ++
      (fillRack requiredLetters rnd { b.playerRack with tiles := [] }
        (b.playerRack.tiles.foldl TileSet.returnTile b.playerTileSet)).2.poolLetters)
      (b.playerRack.getLetters ++ b.playerTileSet.poolLetters) := by
    refine (fillRack_conserves requiredLetters rnd _ _).trans ?_
    rw [foldl_returnTile_poolLetters]
    have hnil : ({ b.playerRack with tiles := ([] : List Tile) } : TileContainer).getLetters
        = [] := rfl
    rw [hnil, List.nil_append]
    simp only [TileContainer.getLetters]
    exact List.perm_append_comm
  refine ⟨⟨by rw [hMf], by rw [hMf]⟩, ⟨by rw [hMt], by rw [hMt]⟩, ?_⟩
  intro full
  cases full with
  | false =>
    refine ⟨?_, ?_, ?_⟩
    · rw [hMf]
      exact fillRack_post requiredLetters rnd _ _
    · rw [hMf]
      exact hcons
    · rw [hMf]
      exact ⟨rfl, rfl, rfl, rfl, rfl, rfl, rfl, rfl, rfl, rfl, rfl⟩
  | true =>
    refine ⟨?_, ?_, ?_⟩
    · rw [hMt]
      exact fillRack_post requiredLetters rnd _ _
    · rw [hMt]
      exact hcons
    · rw [hMt]
      exact ⟨rfl, rfl, rfl, rfl, rfl, rfl, rfl, rfl, rfl, rfl, rfl⟩

/-- C8 witness: both modes applied to a fresh board (player to move). -/
theorem c8_mulligan_frame_witness :
    baseBoard.currentPlayer = 1 ∧
      ((baseBoard.mulligan [] (fun _ => 0) false).mulliganCount
          = baseBoard.mulliganCount - 1 ∧
        (baseBoard.mulligan [] (fun _ => 0) false).hasUsedMulligan = true) ∧
      ((baseBoard.mulligan [] (fun _ => 0) true).mulliganCount
          = baseBoard.mulliganCount ∧
        (baseBoard.mulligan [] (fun _ => 0) true).hasUsedMulligan
          = baseBoard.hasUsedMulligan) :=
  ⟨rfl,
    (c8_mulligan_frame [] (fun _ => 0) baseBoard rfl).1,
    (c8_mulligan_frame [] (fun _ => 0) baseBoard rfl).2.1⟩

theorem laneCombatStep_eq (renv : RelicEnv) (acc : Int × Int) (lane : Lane)
    (h : lane.temporaryOwner = none) :
    Board.laneCombatStep renv acc lane =
      (acc.1 + (if lane.owner = some 1 ∧ lane.tiles ≠ []
          then claimedLaneDamage renv 1 2 lane else 0),
       acc.2 + (if lane.owner = some 2 ∧ lane.tiles ≠ []
          then enemyLaneDamage renv lane else 0)) := by
  have hbase : lane.calculateDamage
      = (match lane.owner with | none => 0 | some _ => lane.tiles.length) := by
    simp [Lane.calculateDamage, Lane.getEffectiveOwner, h]
  cases ho : lane.owner with
  | none =>
    rw [ho] at hbase
    simp [Board.laneCombatStep, hbase, ho]
  | some n =>
    rw [ho] at hbase
    by_cases hnil : lane.tiles = []
    · simp [Board.laneCombatStep, hbase, hnil, ho]
    · have hpos : 0 < lane.tiles.length := List.length_pos.mpr hnil
      by_cases hn1 : n = 1
      · subst hn1
        simp [Board.laneCombatStep, hbase, hnil, ho, hpos, claimedLaneDamage,
          RelicEnv.active, Lane.getWord]
      · by_cases hn2 : n = 2
        · subst hn2
          simp [Board.laneCombatStep, hbase, hnil, ho, hpos, hn1, enemyLaneDamage,
            RelicEnv.active, Lane.getWord]
        · simp [Board.laneCombatStep, hbase, ho, hn1, hn2]

theorem dealDamage_pair_fields (b : Board) (P E : Int) :
    (if 0 < E then (if 0 < P then b.dealDamage 2 P else b).dealDamage 1 E
      else (if 0 < P then b.dealDamage 2 P else b)).enemyHealth
      = (if 0 < P then max 0 (b.enemyHealth - P) else b.enemyHealth) ∧
    (if 0 < E then (if 0 < P then b.dealDamage 2 P else b).dealDamage 1 E
      else (if 0 < P then b.dealDamage 2 P else b)).playerHealth
      = (if 0 < E then max 0 (b.playerHealth - E) else b.playerHealth) ∧
    (if 0 < E then (if 0 < P then b.dealDamage 2 P else b).dealDamage 1 E
      else (if 0 < P then b.dealDamage 2 P else b)).lane0 = b.lane0 ∧
    (if 0 < E then (if 0 < P then b.dealDamage 2 P else b).dealDamage 1 E
      else (if 0 < P then b.dealDamage 2 P else b)).lane1 = b.lane1 ∧
    (if 0 < E then (if 0 < P then b.dealDamage 2 P else b).dealDamage 1 E
      else (if 0 < P then b.dealDamage 2 P else b)).lane2 = b.lane2 ∧
    (if 0 < E then (if 0 < P then b.dealDamage 2 P else b).dealDamage 1 E
      else (if 0 < P then b.dealDamage 2 P else b)).playerMaxHealth = b.playerMaxHealth ∧
    (if 0 < E then (if 0 < P then b.dealDamage 2 P else b).dealDamage 1 E
      else (if 0 < P then b.dealDamage 2 P else b)).enemyMaxHealth = b.enemyMaxHealth ∧
    (if 0 < E then (if 0 < P then b.dealDamage 2 P else b).dealDamage 1 E
      else (if 0 < P then b.dealDamage 2 P else b)).state = b.state ∧
    (if 0 < E then (if 0 < P then b.dealDamage 2 P else b).dealDamage 1 E
      else (if 0 < P then b.dealDamage 2 P else b)).currentPlayer = b.currentPlayer := by
  by_cases hP : 0 < P <;> by_cases hE : 0 < E <;>
    simp [Board.dealDamage, hP, hE]

theorem processCombat_fields (renv : RelicEnv) (b : Board)
    (h0 : b.lane0.temporaryOwner = none) (h1 : b.lane1.temporaryOwner = none)
    (h2 : b.lane2.temporaryOwner = none) :
    (b.processCombat renv).enemyHealth =
      (if 0 < playerDamageTotal renv b
        then max 0 (b.enemyHealth - playerDamageTotal renv b) else b.enemyHealth) ∧
    (b.processCombat renv).playerHealth =
      (if 0 < enemyDamageTotal renv b
        then max 0 (b.playerHealth - enemyDamageTotal renv b) else b.playerHealth) ∧
    (b.processCombat renv).lane0 = b.lane0 ∧
    (b.processCombat renv).lane1 = b.lane1 ∧
    (b.processCombat renv).lane2 = b.lane2 ∧
    (b.processCombat renv).playerMaxHealth = b.playerMaxHealth ∧
    (b.processCombat renv).enemyMaxHealth = b.enemyMaxHealth ∧
    (b.processCombat renv).state = b.state ∧
    (b.processCombat renv).currentPlayer = b.currentPlayer := by
  have key : Board.laneCombatStep renv
      (Board.laneCombatStep renv (Board.laneCombatStep renv (0, 0) b.lane0) b.lane1)
      b.lane2 = (playerDamageTotal renv b, enemyDamageTotal renv b) := by
    rw [laneCombatStep_eq renv _ _ h0, laneCombatStep_eq renv _ _ h1,
      laneCombatStep_eq renv _ _ h2]
    simp [playerDamageTotal, enemyDamageTotal]
  have hpair := dealDamage_pair_fields b (playerDamageTotal renv b) (enemyDamageTotal renv b)
  simpa only [Board.processCombat, key] using hpair

theorem ratFloor_eq_intFloor (q : Rat) : Rat.floor q = Int.floor q := rfl

theorem scenario_playerDamageTotal_eq :
    playerDamageTotal c1ScenarioRenv c1ScenarioBoard = 6 := by
  have hword : c1ScenarioBoard.lane0.getWord = ['A', 'N', 'T'] := by decide
  have hlen : c1ScenarioBoard.lane0.tiles.length = 3 := by decide
  have howner : c1ScenarioBoard.lane0.owner = some 1 := by decide
  have hne : c1ScenarioBoard.lane0.tiles ≠ [] := by decide
  have hno1 : ¬ (c1ScenarioBoard.lane1.owner = some 1 ∧ c1ScenarioBoard.lane1.tiles ≠ []) := by
    decide
  have hno2 : ¬ (c1ScenarioBoard.lane2.owner = some 1 ∧ c1ScenarioBoard.lane2.tiles ≠ []) := by
    decide
  have hmult : alphaRelic.getWordScoreMult ['A', 'N', 'T'] = 2 := by
    have hc : (['A', 'N', 'T'].map Char.toLower).head? = some 'a' := by decide
    simp [alphaRelic, defaultRelic, hc]
  have hadd : alphaRelic.getWordScoreAdditive ['A', 'N', 'T'] = 0 := rfl
  have hcond : c1ScenarioBoard.lane0.owner = some 1 ∧ c1ScenarioBoard.lane0.tiles ≠ [] :=
    ⟨howner, hne⟩
  simp only [playerDamageTotal, if_pos hcond, if_neg hno1, if_neg hno2,
    add_zero, claimedLaneDamage, RelicEnv.active, c1ScenarioRenv]
  simp only [hword, hlen, getMultResult, getAdditiveResult, List.foldl_cons,
    List.foldl_nil]
  rw [ratFloor_eq_intFloor]
  norm_num
  rw [hmult, hadd]
  norm_num

theorem counterexample_enemyDamageTotal_eq :
    enemyDamageTotal c1Renv c1Board = 3 := by
  have hword : c1Board.lane0.getWord = ['A', 'N', 'T'] := by decide
  have hlen : c1Board.lane0.tiles.length = 3 := by decide
  have howner : c1Board.lane0.owner = some 2 := by decide
  have hne : c1Board.lane0.tiles ≠ [] := by decide
  have hno1 : ¬ (c1Board.lane1.owner = some 2 ∧ c1Board.lane1.tiles ≠ []) := by decide
  have hno2 : ¬ (c1Board.lane2.owner = some 2 ∧ c1Board.lane2.tiles ≠ []) := by decide
  have hcond : c1Board.lane0.owner = some 2 ∧ c1Board.lane0.tiles ≠ [] := ⟨howner, hne⟩
  simp only [enemyDamageTotal, if_pos hcond, if_neg hno1, if_neg hno2,
    add_zero, enemyLaneDamage, RelicEnv.active, c1Renv]
  simp only [hword, hlen, getMultResult, getAdditiveResult, List.foldl_nil]
  rw [ratFloor_eq_intFloor]
  norm_num

theorem counterexample_claimedLaneDamage_eq :
    claimedLaneDamage c1Renv 2 1 c1Board.lane0 = 6 := by
  have hword : c1Board.lane0.getWord = ['A', 'N', 'T'] := by decide
  have hlen : c1Board.lane0.tiles.length = 3 := by decide
  have hvuln : bugWordsRelic.getWordVulnerabilityMult ['A', 'N', 'T'] = 2 := by
    have hc : isWordInList bugWordsList ['A', 'N', 'T'] = true := by decide
    simp [bugWordsRelic, defaultRelic, hc]
  simp only [claimedLaneDamage, RelicEnv.active, c1Renv]
  simp only [hword, hlen, getMultResult, getAdditiveResult, List.foldl_cons,
    List.foldl_nil]
  rw [ratFloor_eq_intFloor]
  norm_num
  rw [hvuln]
  norm_num

/-- C1 (corrected): the claimed per-lane formula — including the opposing
side's vulnerability multiplier — matches the code only for player-owned
lanes; an enemy-owned lane contributes floor(count*mult+additive) without
any vulnerability factor.  processCombat applies the per-side totals to the
opposing health pools (clamped at zero) and changes nothing else.  The
Scenario-4 instance (lane "ant", owning multiplier 2, no additive, no
opposing vulnerability) deals exactly 6 damage. -/
theorem c1_combat_damage_amended :
    (∀ (renv : RelicEnv) (b : Board),
      b.lane0.temporaryOwner = none → b.lane1.temporaryOwner = none →
      b.lane2.temporaryOwner = none →
      (b.processCombat renv).enemyHealth =
        (if 0 < playerDamageTotal renv b
          then max 0 (b.enemyHealth - playerDamageTotal renv b) else b.enemyHealth) ∧
      (b.processCombat renv).playerHealth =
        (if 0 < enemyDamageTotal renv b
          then max 0 (b.playerHealth - enemyDamageTotal renv b) else b.playerHealth) ∧
      (b.processCombat renv).lane0 = b.lane0 ∧
      (b.processCombat renv).lane1 = b.lane1 ∧
      (b.processCombat renv).lane2 = b.lane2 ∧
      (b.processCombat renv).playerMaxHealth = b.playerMaxHealth ∧
      (b.processCombat renv).enemyMaxHealth = b.enemyMaxHealth ∧
      (b.processCombat renv).state = b.state ∧
      (b.processCombat renv).currentPlayer = b.currentPlayer) ∧
    (playerDamageTotal c1ScenarioRenv c1ScenarioBoard = 6 ∧
      (Board.processCombat c1ScenarioRenv c1ScenarioBoard).enemyHealth
        = c1ScenarioBoard.enemyHealth - 6) := by
  refine ⟨processCombat_fields, scenario_playerDamageTotal_eq, ?_⟩
  have h := (processCombat_fields c1ScenarioRenv c1ScenarioBoard rfl rfl rfl).1
  rw [scenario_playerDamageTotal_eq] at h
  rw [h]
  have : c1ScenarioBoard.enemyHealth = 30 := by decide
  rw [this]
  norm_num

/-- C1 counterexample: with the bug-words vulnerability relic active on the
player side and an enemy-owned lane spelling "ant", the claimed formula
(applied uniformly to both sides) predicts 6 damage to the player, leaving
24 health, but the code deals only floor(3*1+0) = 3, leaving 27: the
vulnerability multiplier is not applied for enemy-owned lanes. -/
theorem c1_combat_damage_counterexample :
    claimedLaneDamage c1Renv 2 1 c1Board.lane0 = 6 ∧
    c1Board.lane0.owner = some 2 ∧
    c1Board.lane0.tiles.length = 3 ∧
    c1Board.playerHealth - claimedLaneDamage c1Renv 2 1 c1Board.lane0 = 24 ∧
    (Board.processCombat c1Renv c1Board).playerHealth = 27 ∧
    (Board.processCombat c1Renv c1Board).playerHealth ≠
      c1Board.playerHealth - claimedLaneDamage c1Renv 2 1 c1Board.lane0 := by
  have hP : (Board.processCombat c1Renv c1Board).playerHealth = 27 := by
    have h := (processCombat_fields c1Renv c1Board rfl rfl rfl).2.1
    rw [counterexample_enemyDamageTotal_eq] at h
    rw [h]
    have : c1Board.playerHealth = 30 := by decide
    rw [this]
    norm_num
  have hC : c1Board.playerHealth - claimedLaneDamage c1Renv 2 1 c1Board.lane0 = 24 := by
    rw [counterexample_claimedLaneDamage_eq]
    have : c1Board.playerHealth = 30 := by decide
    rw [this]
    norm_num
  refine ⟨counterexample_claimedLaneDamage_eq, by decide, by decide, hC, hP, ?_⟩
  rw [hP, hC]
  norm_num

/-- C1 witness: the amended characterisation applied to the Scenario-4
board. -/
theorem c1_combat_damage_amended_witness :
    (c1ScenarioBoard.lane0.temporaryOwner = none ∧
      c1ScenarioBoard.lane1.temporaryOwner = none ∧
      c1ScenarioBoard.lane2.temporaryOwner = none) ∧
    (Board.processCombat c1ScenarioRenv c1ScenarioBoard).enemyHealth =
      (if 0 < playerDamageTotal c1ScenarioRenv c1ScenarioBoard
        then max 0 (c1ScenarioBoard.enemyHealth
          - playerDamageTotal c1ScenarioRenv c1ScenarioBoard)
        else c1ScenarioBoard.enemyHealth) :=
  ⟨⟨rfl, rfl, rfl⟩,
    (c1_combat_damage_amended.1 c1ScenarioRenv c1ScenarioBoard rfl rfl rfl).1⟩

theorem setOwner_letters (l : Lane) (o : Option Nat) :
    (l.setOwner o).tiles.map Tile.letter = l.tiles.map Tile.letter := by
  simp only [Lane.setOwner, List.map_map]
  exact List.map_congr_left fun a _ => rfl

theorem addTile_tiles_of_lt (l : Lane) (t : Tile) (h : l.tiles.length < LANE_MAX_TILES) :
    (l.addTile t).2.tiles = l.tiles ++ [t] := by
  simp [Lane.addTile, Nat.not_le.mpr h]

theorem laneLetterLoop_some_conserves (uL : List Nat) (letter : Char) (ts : TileSet) :
    ∀ (pairs : List (Nat × Char)) (i : Nat) (tile : Tile) (ts1 : TileSet),
      AI.laneLetterLoop uL letter ts pairs = some (i, tile, ts1) →
      List.Perm (tile.letter :: ts1.poolLetters) ts.poolLetters := by
  intro pairs
  induction pairs with
  | nil => intro i tile ts1 h; exact absurd h (by simp [AI.laneLetterLoop])
  | cons p rest ih =>
    intro i tile ts1 h
    obtain ⟨j, c⟩ := p
    by_cases hcond : (!uL.contains j && c == letter) = true
    · simp only [AI.laneLetterLoop, if_pos hcond] at h
      cases hdraw : ts.drawTile (some letter) 0 with
      | mk topt ts2 =>
        rw [hdraw] at h
        cases topt with
        | some t =>
          simp only [Option.some.injEq, Prod.mk.injEq] at h
          obtain ⟨-, ht, hts⟩ := h
          rw [← ht, ← hts]
          exact drawTile_some_conservation ts ts2 (some letter) 0 t hdraw
        | none => exact ih i tile ts1 h
    · simp only [AI.laneLetterLoop, if_neg hcond] at h
      exact ih i tile ts1 h

theorem findRackTileIdx_some_mem (uR : List Nat) (letter : Char) :
    ∀ (pairs : List (Nat × Tile)) (idx : Nat),
      AI.findRackTileIdx uR letter pairs = some idx → ∃ t, (idx, t) ∈ pairs := by
  intro pairs
  induction pairs with
  | nil => intro idx h; exact absurd h (by simp [AI.findRackTileIdx])
  | cons p rest ih =>
    intro idx h
    obtain ⟨j, t⟩ := p
    by_cases hcond : (t.letter == letter && !uR.contains j) = true
    · simp only [AI.findRackTileIdx, if_pos hcond, Option.some.injEq] at h
      subst h
      exact ⟨t, List.mem_cons_self _ _⟩
    · simp only [AI.findRackTileIdx, if_neg hcond] at h
      obtain ⟨t1, ht1⟩ := ih idx h
      exact ⟨t1, List.mem_cons_of_mem _ ht1⟩

theorem rackLetterLoop_some_lt (uR : List Nat) (letter : Char) (rackTiles : List Tile) :
    ∀ (pairs : List (Nat × Char)) (i idx : Nat),
      AI.rackLetterLoop uR letter rackTiles pairs = some (i, idx) →
      idx < rackTiles.length := by
  intro pairs
  induction pairs with
  | nil => intro i idx h; exact absurd h (by simp [AI.rackLetterLoop])
  | cons p rest ih =>
    intro i idx h
    obtain ⟨j, c⟩ := p
    by_cases hcond : (!uR.contains j && c == letter) = true
    · simp only [AI.rackLetterLoop, if_pos hcond] at h
      cases hfind : AI.findRackTileIdx uR letter rackTiles.enum with
      | some k =>
        rw [hfind] at h
        simp only [Option.some.injEq, Prod.mk.injEq] at h
        obtain ⟨-, hk⟩ := h
        rw [← hk]
        obtain ⟨t, hmem⟩ := findRackTileIdx_some_mem uR letter rackTiles.enum k hfind
        have hget := List.mk_mem_enum_iff_getElem?.mp hmem
        obtain ⟨hlt, -⟩ := List.getElem?_eq_some.mp hget
        exact hlt
      | none =>
        rw [hfind] at h
        exact ih i idx h
    · simp only [AI.rackLetterLoop, if_neg hcond] at h
      exact ih i idx h

theorem removeTile_natCast (c : TileContainer) (i : Nat) (h : i < c.tiles.length) :
    c.removeTile (i : Int)
      = (some (c.tiles.get ⟨i, h⟩), { c with tiles := c.tiles.eraseIdx i }) := by
  have hpair : (0 : Int) ≤ (i : Int) ∧ ((i : Int)).toNat < c.tiles.length := by
    constructor
    · exact Int.natCast_nonneg i
    · simpa using h
  simp only [TileContainer.removeTile, dif_pos hpair]
  simp

theorem playWordGo_conserves (laneIdx rackIdx : List (Nat × Char)) :
    ∀ (w : List Char) (uL uR : List Nat) (lane : Lane) (rack : TileContainer)
      (ts : TileSet), lane.tiles.length + w.length ≤ LANE_MAX_TILES →
      List.Perm
        (stateLetters (AI.playWordGo laneIdx rackIdx w uL uR lane rack ts).2.1
          (AI.playWordGo laneIdx rackIdx w uL uR lane rack ts).2.2.1
          (AI.playWordGo laneIdx rackIdx w uL uR lane rack ts).2.2.2)
        (stateLetters lane rack ts)
  | [], uL, uR, lane, rack, ts, _ => by
    simp only [AI.playWordGo, stateLetters, setOwner_letters]
    exact List.Perm.refl _
  | letter :: rest, uL, uR, lane, rack, ts, h => by
    have hlt : lane.tiles.length < LANE_MAX_TILES := by
      simp only [List.length_cons] at h
      omega
    unfold AI.playWordGo
    cases hll : AI.laneLetterLoop uL letter ts laneIdx with
    | some r =>
      obtain ⟨i, tile, ts1⟩ := r
      have hperm := laneLetterLoop_some_conserves uL letter ts laneIdx i tile ts1 hll
      have haddt := addTile_tiles_of_lt lane tile hlt
      have hlen1 : (lane.addTile tile).2.tiles.length + rest.length ≤ LANE_MAX_TILES := by
        rw [haddt]
        simp only [List.length_append, List.length_cons, List.length_nil]
        simp only [List.length_cons] at h
        omega
      refine (playWordGo_conserves laneIdx rackIdx rest (i :: uL) uR _ rack ts1 hlen1).trans ?_
      simp only [stateLetters, haddt, List.map_append, List.map_cons, List.map_nil,
        List.append_assoc]
      refine List.Perm.append_left _ ?_
      have hstep : List.Perm
          (tile.letter :: (rack.tiles.map Tile.letter ++ ts1.poolLetters))
          (rack.tiles.map Tile.letter ++ (tile.letter :: ts1.poolLetters)) :=
        List.perm_middle.symm
      exact hstep.trans (hperm.append_left _)
    | none =>
      cases hrl : AI.rackLetterLoop uR letter rack.tiles rackIdx with
      | some r =>
        obtain ⟨i, idx⟩ := r
        have hidx := rackLetterLoop_some_lt uR letter rack.tiles rackIdx i idx hrl
        simp only []
        rw [removeTile_natCast rack idx hidx]
        have haddt := addTile_tiles_of_lt lane (rack.tiles.get ⟨idx, hidx⟩) hlt
        have hlen1 : (lane.addTile (rack.tiles.get ⟨idx, hidx⟩)).2.tiles.length
            + rest.length ≤ LANE_MAX_TILES := by
          rw [haddt]
          simp only [List.length_append, List.length_cons, List.length_nil]
          simp only [List.length_cons] at h
          omega
        refine (playWordGo_conserves laneIdx rackIdx rest uL (i :: uR) _
          { rack with tiles := rack.tiles.eraseIdx idx } ts hlen1).trans ?_
        have hrperm : List.Perm
            ((rack.tiles.get ⟨idx, hidx⟩).letter :: (rack.tiles.eraseIdx idx).map Tile.letter)
            (rack.tiles.map Tile.letter) := by
          simpa using (get_cons_eraseIdx_perm rack.tiles idx hidx).map Tile.letter
        simp only [stateLetters, haddt, List.map_append, List.map_cons, List.map_nil,
          List.append_assoc]
        refine List.Perm.append_left _ ?_
        exact hrperm.append_right ts.poolLetters
      | none => exact List.Perm.refl _

theorem playWordGo_false_frame (laneIdx rackIdx : List (Nat × Char)) :
    ∀ (w : List Char) (uL uR : List Nat) (lane : Lane) (rack : TileContainer)
      (ts : TileSet), lane.owner = none → lane.temporaryOwner = none →
      (AI.playWordGo laneIdx rackIdx w uL uR lane rack ts).1 = false →
      (AI.playWordGo laneIdx rackIdx w uL uR lane rack ts).2.1.owner = none ∧
      (AI.playWordGo laneIdx rackIdx w uL uR lane rack ts).2.1.temporaryOwner = none
  | [], uL, uR, lane, rack, ts, _, _ => by
    intro hfalse
    simp [AI.playWordGo] at hfalse
  | letter :: rest, uL, uR, lane, rack, ts, how, htow => by
    have haddTile : ∀ t : Tile,
        ((lane.addTile t).2).owner = none ∧ ((lane.addTile t).2).temporaryOwner = none := by
      intro t
      unfold Lane.addTile
      split <;> simp [how, htow]
    unfold AI.playWordGo
    cases hll : AI.laneLetterLoop uL letter ts laneIdx with
    | some r =>
      obtain ⟨i, tile, ts1⟩ := r
      exact playWordGo_false_frame laneIdx rackIdx rest (i :: uL) uR _ rack ts1
        (haddTile tile).1 (haddTile tile).2
    | none =>
      cases hrl : AI.rackLetterLoop uR letter rack.tiles rackIdx with
      | some r =>
        obtain ⟨i, idx⟩ := r
        simp only []
        cases hrem : rack.removeTile (idx : Int) with
        | mk topt rack1 =>
          cases topt with
          | some t =>
            exact playWordGo_false_frame laneIdx rackIdx rest uL (i :: uR) _ rack1 ts
              (haddTile t).1 (haddTile t).2
          | none =>
            intro _
            exact ⟨how, htow⟩
      | none =>
        intro _
        exact ⟨how, htow⟩

/-- C3 (corrected): a failed AI.playWord commits no word — the lane is left
neutral (no owner) — and, as long as the word fits lane capacity, no tile is
lost or duplicated: the combined lane/rack/pool letter multiset is exactly
preserved whether the play succeeds or aborts.  The containers are NOT
restored to their pre-attempt state on failure. -/
theorem c3_playword_amended (word laneLetters rackLetters : List Char) (lane : Lane)
    (rack : TileContainer) (ts : TileSet) (hlen : word.length ≤ LANE_MAX_TILES) :
    List.Perm
      (stateLetters (AI.playWord word laneLetters rackLetters lane rack ts).2.1
        (AI.playWord word laneLetters rackLetters lane rack ts).2.2.1
        (AI.playWord word laneLetters rackLetters lane rack ts).2.2.2)
      (stateLetters lane rack ts) ∧
    ((AI.playWord word laneLetters rackLetters lane rack ts).1 = false →
      (AI.playWord word laneLetters rackLetters lane rack ts).2.1.owner = none ∧
      (AI.playWord word laneLetters rackLetters lane rack ts).2.1.temporaryOwner = none) := by
  constructor
  · have hgo := playWordGo_conserves laneLetters.enum rackLetters.enum
      (word.map Char.toUpper) [] []
      { lane with tiles := [], owner := none, temporaryOwner := none } rack
      (lane.tiles.foldl TileSet.returnTile ts)
      (by simpa using hlen)
    refine hgo.trans ?_
    simp only [stateLetters, List.map_nil, List.nil_append,
      foldl_returnTile_poolLetters]
    have hc : List.Perm
        ((rack.tiles.map Tile.letter ++ ts.poolLetters) ++ lane.tiles.map Tile.letter)
        (lane.tiles.map Tile.letter ++ (rack.tiles.map Tile.letter ++ ts.poolLetters)) :=
      List.perm_append_comm
    simpa [List.append_assoc] using hc
  · exact playWordGo_false_frame laneLetters.enum rackLetters.enum
      (word.map Char.toUpper) [] [] _ rack _ rfl rfl

/-- C3 counterexample: playing "ab" with lane letter Z and rack letter A
aborts on the unmatched B, yet the lane now holds A instead of Z, the rack
lost its tile and the pool gained Z — the containers are not left as they
were before the attempt. -/
theorem c3_playword_counterexample :
    (AI.playWord ['a', 'b'] ['Z'] ['A'] c3Lane c3Rack c3TileSet).1 = false ∧
    (AI.playWord ['a', 'b'] ['Z'] ['A'] c3Lane c3Rack c3TileSet).2.1.tiles ≠ c3Lane.tiles ∧
    (AI.playWord ['a', 'b'] ['Z'] ['A'] c3Lane c3Rack c3TileSet).2.2.1.tiles ≠ c3Rack.tiles ∧
    (AI.playWord ['a', 'b'] ['Z'] ['A'] c3Lane c3Rack c3TileSet).2.2.2 ≠ c3TileSet := by
  refine ⟨by decide, by decide, by decide, by decide⟩

/-- C3 witness: the conservation statement at the counterexample input. -/
theorem c3_playword_amended_witness :
    (['a', 'b'] : List Char).length ≤ LANE_MAX_TILES ∧
    List.Perm
      (stateLetters (AI.playWord ['a', 'b'] ['Z'] ['A'] c3Lane c3Rack c3TileSet).2.1
        (AI.playWord ['a', 'b'] ['Z'] ['A'] c3Lane c3Rack c3TileSet).2.2.1
        (AI.playWord ['a', 'b'] ['Z'] ['A'] c3Lane c3Rack c3TileSet).2.2.2)
      (stateLetters c3Lane c3Rack c3TileSet) :=
  ⟨by decide,
    (c3_playword_amended ['a', 'b'] ['Z'] ['A'] c3Lane c3Rack c3TileSet (by decide)).1⟩

/-- C9: Lane.clear removes and returns every tile and resets both the
permanent and the temporary owner to neutral; hence the source lane of a
lane shift ends empty and neutral, and a lane processed by the AI's word
realisation ends either neutral (no word committed) or owned by side 2 —
never with its previous ownership silently retained. -/
theorem c9_clear_resets_ownership :
    (∀ l : Lane,
      l.clear = (l.tiles, { l with tiles := [], owner := none, temporaryOwner := none })) ∧
    (∀ src dst : Lane,
      (Board.moveLaneTilesPair src dst).1.tiles = [] ∧
      (Board.moveLaneTilesPair src dst).1.owner = none ∧
      (Board.moveLaneTilesPair src dst).1.temporaryOwner = none) ∧
    (∀ (word laneLetters rackLetters : List Char) (lane : Lane)
        (rack : TileContainer) (ts : TileSet),
      (AI.playWord word laneLetters rackLetters lane rack ts).2.1.owner = none ∨
      (AI.playWord word laneLetters rackLetters lane rack ts).2.1.owner = some 2) := by
  refine ⟨fun l => rfl, fun src dst => ⟨rfl, rfl, rfl⟩, ?_⟩
  intro word laneLetters rackLetters lane rack ts
  exact playWordGo_owner laneLetters.enum rackLetters.enum (word.map Char.toUpper)
    [] [] _ rack _ rfl

/-! C4: the AI word search against the longest-earliest specification. -/

theorem isCandidate_iff (allLetters requiredLetters w : List Char) :
    AI.isCandidate allLetters requiredLetters w = true ↔
      ((0 < requiredLetters.length → requiredLetters.length < w.length) ∧
        MIN_WORD_LENGTH ≤ w.length ∧
        AI.canFormWord w allLetters = true ∧
        AI.containsAllLetters w requiredLetters = true) := by
  simp only [AI.isCandidate, Bool.and_eq_true, Bool.not_eq_true', Bool.and_eq_false_iff,
    decide_eq_true_eq, decide_eq_false_iff_not, Nat.not_le, Nat.not_lt]
  constructor
  · rintro ⟨⟨⟨h1, h2⟩, h3⟩, h4⟩
    exact ⟨fun hpos => by rcases h1 with h1 | h1 <;> omega, h2, h3, h4⟩
  · rintro ⟨h1, h2, h3, h4⟩
    refine ⟨⟨⟨?_, h2⟩, h3⟩, h4⟩
    by_cases hpos : 0 < requiredLetters.length
    · exact Or.inl (h1 hpos)
    · exact Or.inr (by omega)

theorem isCandidate_pos (allLetters requiredLetters w : List Char)
    (h : AI.isCandidate allLetters requiredLetters w = true) : 0 < w.length := by
  have h2 := ((isCandidate_iff allLetters requiredLetters w).mp h).2.1
  have h3 : (2 : Nat) ≤ w.length := h2
  omega

theorem specLongestEarliest_none_iff (cand : List Char → Bool) :
    ∀ l : List (List Char),
      specLongestEarliest cand l = none ↔ ∀ w ∈ l, cand w = false := by
  intro l
  induction l with
  | nil => simp [specLongestEarliest]
  | cons w rest ih =>
    constructor
    · intro h x hx
      cases hrec : specLongestEarliest cand rest with
      | none =>
        simp only [specLongestEarliest, hrec] at h
        by_cases hc : cand w = true
        · rw [if_pos hc] at h
          exact absurd h (by simp)
        · rcases List.mem_cons.mp hx with h1 | h1
          · subst h1
            simpa using hc
          · exact (ih.mp hrec) x h1
      | some b =>
        simp only [specLongestEarliest, hrec] at h
        split_ifs at h
    · intro hall
      have hrest : specLongestEarliest cand rest = none :=
        ih.mpr fun x hx => hall x (List.mem_cons_of_mem _ hx)
      have hcw : ¬ cand w = true := by
        simp [hall w (List.mem_cons_self _ _)]
      simp only [specLongestEarliest, hrest]
      rw [if_neg hcw]

theorem specLongestEarliest_longest (cand : List Char → Bool) :
    ∀ (l : List (List Char)) (r : List Char),
      specLongestEarliest cand l = some r →
        r ∈ l ∧ cand r = true ∧
          ∀ w ∈ l, cand w = true → w.length ≤ r.length := by
  intro l
  induction l with
  | nil =>
    intro r hr
    simp [specLongestEarliest] at hr
  | cons w rest ih =>
    intro r hr
    cases hrec : specLongestEarliest cand rest with
    | none =>
      simp only [specLongestEarliest, hrec] at hr
      by_cases hc : cand w = true
      · rw [if_pos hc, Option.some.injEq] at hr
        subst hr
        refine ⟨List.mem_cons_self _ _, hc, ?_⟩
        intro x hx hcx
        rcases List.mem_cons.mp hx with h1 | h1
        · subst h1; exact le_refl _
        · exact absurd hcx (by simp [(specLongestEarliest_none_iff cand rest).mp hrec x h1])
      · rw [if_neg hc] at hr
        exact absurd hr (by simp)
    | some b =>
      obtain ⟨hbmem, hbc, hbound⟩ := ih b hrec
      simp only [specLongestEarliest, hrec] at hr
      by_cases hcond : (cand w && decide (b.length ≤ w.length)) = true
      · rw [if_pos hcond, Option.some.injEq] at hr
        subst hr
        simp only [Bool.and_eq_true, decide_eq_true_eq] at hcond
        refine ⟨List.mem_cons_self _ _, hcond.1, ?_⟩
        intro x hx hcx
        rcases List.mem_cons.mp hx with h1 | h1
        · subst h1; exact le_refl _
        · exact le_trans (hbound x h1 hcx) hcond.2
      · rw [if_neg hcond] at hr
        rw [Option.some.injEq] at hr
        subst hr
        refine ⟨List.mem_cons_of_mem _ hbmem, hbc, ?_⟩
        intro x hx hcx
        rcases List.mem_cons.mp hx with h1 | h1
        · subst h1
          by_cases hlen : b.length ≤ x.length
          · exact absurd (by simp [hcx, hlen] : (cand x && decide (b.length ≤ x.length)) = true) hcond
          · omega
        · exact hbound x h1 hcx

theorem specLongestEarliest_earliest (cand : List Char → Bool) :
    ∀ (l : List (List Char)) (r : List Char),
      specLongestEarliest cand l = some r →
        ∃ l1 l2, l = l1 ++ r :: l2 ∧
          ∀ w ∈ l1, cand w = true → w.length < r.length := by
  intro l
  induction l with
  | nil =>
    intro r hr
    simp [specLongestEarliest] at hr
  | cons w rest ih =>
    intro r hr
    cases hrec : specLongestEarliest cand rest with
    | none =>
      simp only [specLongestEarliest, hrec] at hr
      by_cases hc : cand w = true
      · rw [if_pos hc, Option.some.injEq] at hr
        subst hr
        exact ⟨[], rest, rfl, by simp⟩
      · rw [if_neg hc] at hr
        exact absurd hr (by simp)
    | some b =>
      simp only [specLongestEarliest, hrec] at hr
      by_cases hcond : (cand w && decide (b.length ≤ w.length)) = true
      · rw [if_pos hcond, Option.some.injEq] at hr
        subst hr
        exact ⟨[], rest, rfl, by simp⟩
      · rw [if_neg hcond, Option.some.injEq] at hr
        subst hr
        obtain ⟨l1, l2, heq, hall⟩ := ih b hrec
        refine ⟨w :: l1, l2, by rw [heq]; rfl, ?_⟩
        intro x hx hcx
        rcases List.mem_cons.mp hx with h1 | h1
        · subst h1
          by_cases hlen : b.length ≤ x.length
          · exact absurd (by simp [hcx, hlen] : (cand x && decide (b.length ≤ x.length)) = true) hcond
          · omega
        · exact hall x h1 hcx

theorem findBestWordGo_eq (cand : List Char → Bool)
    (hpos : ∀ w, cand w = true → 0 < w.length) :
    ∀ (l : List (List Char)) (best : Option (List Char)) (bestLength : Nat),
      bestLength = (match best with | none => 0 | some b => b.length) →
      AI.findBestWordGo cand l best bestLength
        = combineBest best (specLongestEarliest cand l) := by
  intro l
  induction l with
  | nil =>
    intro best bestLength _
    cases best <;> rfl
  | cons w rest ih =>
    intro best bestLength hlen
    cases best with
    | none =>
      have hlen0 : bestLength = 0 := hlen
      subst hlen0
      by_cases hc : cand w = true
      · have h0 : 0 < w.length := hpos w hc
        have hgo : AI.findBestWordGo cand (w :: rest) none 0
            = AI.findBestWordGo cand rest (some w) w.length := by
          simp [AI.findBestWordGo, hc, h0]
        rw [hgo, ih (some w) w.length rfl]
        cases hle : specLongestEarliest cand rest with
        | none => simp [combineBest, specLongestEarliest, hle, hc]
        | some bb =>
          simp only [specLongestEarliest, hle, hc, Bool.true_and]
          by_cases hbw : bb.length ≤ w.length
          · have hnl : ¬ w.length < bb.length := by omega
            simp [combineBest, hbw, hnl]
          · have hl : w.length < bb.length := by omega
            simp [combineBest, hbw, hl]
      · have hgo : AI.findBestWordGo cand (w :: rest) none 0
            = AI.findBestWordGo cand rest none 0 := by
          simp [AI.findBestWordGo, hc]
        rw [hgo, ih none 0 rfl]
        cases hle : specLongestEarliest cand rest <;>
          simp [combineBest, specLongestEarliest, hle, hc]
    | some b0 =>
      have hlenb : bestLength = b0.length := hlen
      subst hlenb
      by_cases hc : cand w = true
      · by_cases hlt : b0.length < w.length
        · have hgo : AI.findBestWordGo cand (w :: rest) (some b0) b0.length
              = AI.findBestWordGo cand rest (some w) w.length := by
            simp [AI.findBestWordGo, hc, hlt]
          rw [hgo, ih (some w) w.length rfl]
          cases hle : specLongestEarliest cand rest with
          | none => simp [combineBest, specLongestEarliest, hle, hc, hlt]
          | some bb =>
            simp only [specLongestEarliest, hle, hc, Bool.true_and]
            by_cases hbw : bb.length ≤ w.length
            · have hnl : ¬ w.length < bb.length := by omega
              simp [combineBest, hbw, hnl, hlt]
            · have hl : w.length < bb.length := by omega
              have hb : b0.length < bb.length := by omega
              simp [combineBest, hbw, hl, hb]
        · have hgo : AI.findBestWordGo cand (w :: rest) (some b0) b0.length
              = AI.findBestWordGo cand rest (some b0) b0.length := by
            simp [AI.findBestWordGo, hc, hlt]
          rw [hgo, ih (some b0) b0.length rfl]
          cases hle : specLongestEarliest cand rest with
          | none => simp [combineBest, specLongestEarliest, hle, hc, hlt]
          | some bb =>
            simp only [specLongestEarliest, hle, hc, Bool.true_and]
            by_cases hbw : bb.length ≤ w.length
            · have h1 : ¬ b0.length < bb.length := by omega
              have h2 : ¬ b0.length < w.length := hlt
              simp [combineBest, hbw, h1, h2]
            · simp [combineBest, hbw]
      · have hgo : AI.findBestWordGo cand (w :: rest) (some b0) b0.length
            = AI.findBestWordGo cand rest (some b0) b0.length := by
          simp [AI.findBestWordGo, hc]
        rw [hgo, ih (some b0) b0.length rfl]
        cases hle : specLongestEarliest cand rest <;>
          simp [combineBest, specLongestEarliest, hle, hc]

/-- C4: for every dictionary, difficulty, available-letter multiset and
required-letter multiset, AI.findBestWord equals the longest-earliest
search of the spec over the first `dictSize / dictDivisor` entries: the
search bound is exactly that floor quotient; a word is scanned as a
candidate iff it is strictly longer than a nonzero required count, at
least MIN_WORD_LENGTH long, formable from the available letters and
containing every required letter with multiplicity; the result is none
iff no scanned word is a candidate; and any returned word is a scanned
candidate of maximal length whose earlier scanned candidates are all
strictly shorter (ties broken by dictionary order). -/
theorem c4_find_best_word_longest_earliest
    (dict : List (List Char)) (difficulty : Nat)
    (allLetters requiredLetters : List Char) :
    AI.findBestWord dict difficulty allLetters requiredLetters
        = specLongestEarliest (AI.isCandidate allLetters requiredLetters)
            (dict.take (AI.calculateDictLimit difficulty dict.length)) ∧
    AI.calculateDictLimit difficulty dict.length
        = dict.length / AI.dictDivisor difficulty ∧
    (∀ w, AI.isCandidate allLetters requiredLetters w = true ↔
      ((0 < requiredLetters.length → requiredLetters.length < w.length) ∧
        MIN_WORD_LENGTH ≤ w.length ∧
        AI.canFormWord w allLetters = true ∧
        AI.containsAllLetters w requiredLetters = true)) ∧
    (AI.findBestWord dict difficulty allLetters requiredLetters = none ↔
      ∀ w ∈ dict.take (AI.calculateDictLimit difficulty dict.length),
        AI.isCandidate allLetters requiredLetters w = false) ∧
    (∀ r, AI.findBestWord dict difficulty allLetters requiredLetters = some r →
      r ∈ dict.take (AI.calculateDictLimit difficulty dict.length) ∧
      AI.isCandidate allLetters requiredLetters r = true ∧
      (∀ w ∈ dict.take (AI.calculateDictLimit difficulty dict.length),
        AI.isCandidate allLetters requiredLetters w = true → w.length ≤ r.length) ∧
      ∃ l1 l2, dict.take (AI.calculateDictLimit difficulty dict.length) = l1 ++ r :: l2 ∧
        ∀ w ∈ l1, AI.isCandidate allLetters requiredLetters w = true →
          w.length < r.length) := by
  have heq : AI.findBestWord dict difficulty allLetters requiredLetters
      = specLongestEarliest (AI.isCandidate allLetters requiredLetters)
          (dict.take (AI.calculateDictLimit difficulty dict.length)) := by
    have h := findBestWordGo_eq (AI.isCandidate allLetters requiredLetters)
        (fun w hw => isCandidate_pos allLetters requiredLetters w hw)
        (dict.take (AI.calculateDictLimit difficulty dict.length)) none 0 rfl
    simpa [AI.findBestWord, combineBest] using h
  refine ⟨heq, rfl, fun w => isCandidate_iff allLetters requiredLetters w, ?_, ?_⟩
  · rw [heq]
    exact specLongestEarliest_none_iff _ _
  · intro r hr
    rw [heq] at hr
    obtain ⟨hmem, hcand, hbound⟩ := specLongestEarliest_longest _ _ r hr
    exact ⟨hmem, hcand, hbound, specLongestEarliest_earliest _ _ r hr⟩

/-- C4 witness: a concrete four-entry dictionary at difficulty 5 with
letters T, A, C available and no required letters; the search agrees with
the specification and returns the earliest of the longest candidates. -/
theorem c4_find_best_word_longest_earliest_witness :
    AI.findBestWord [['a'], ['a','t'], ['t','a'], ['c','a','t','s']] 5 ['T','A','C'] []
        = specLongestEarliest (AI.isCandidate ['T','A','C'] [])
            ([['a'], ['a','t'], ['t','a'], ['c','a','t','s']].take
              (AI.calculateDictLimit 5
                (List.length [['a'], ['a','t'], ['t','a'], ['c','a','t','s']]))) ∧
    AI.findBestWord [['a'], ['a','t'], ['t','a'], ['c','a','t','s']] 5 ['T','A','C'] []
        = some ['a','t'] :=
  ⟨(c4_find_best_word_longest_earliest [['a'], ['a','t'], ['t','a'], ['c','a','t','s']] 5
      ['T','A','C'] []).1, by decide⟩

end WordGame
